import Mathlib

/-!
# tao::json value: comparison engine and object insertion

A shallow embedding of `include/tao/json/value.hh`.

* A `value_base` is a tagged union; it is embedded as the inductive type `value`, one
  constructor per `json::type`.  A POINTER payload is a `const value_base *`: either null
  (`none`) or the address of another value (`some p`).  Since `value` is an inductive type,
  every chain of pointers is finite: the embedding covers exactly the values without a
  reference cycle.
* `int64_t` payloads are integers, `double` payloads are the (finite) numbers they denote,
  `std::string` is a `String` ordered lexicographically, `std::vector< value >` is a list and
  `std::map< std::string, value >` is the list of its entries in iteration order (ascending
  keys).
* Comparisons return `Option Bool`: `none` means that the call has no defined result.  This
  happens where the code dereferences the pointer it has read from `m_union.p` of a value
  whose type is not POINTER (the comment in front of the `unsafe_get_*` accessors forbids
  the read).  What such a read yields is a parameter of the comparisons, a `punning`.
* The comparisons recurse on both operands, so they are defined by well-founded recursion on
  the sizes of the operands; on literals they are evaluated with their equations (`simp`).
* A mutating member function returns the value after the call together with the exception
  thrown, if any.
-/

namespace tao.json

/-- Modelled from the spec: `type.hh` is not among the sources.  The discriminants are listed
in the order the spec gives them (Null < Bool < Integer < Double < String < Array < Object,
Reference last); `operator<` on the `enum class` compares these positions. -/
inductive type where
  | NULL_ | BOOL_ | INTEGER | DOUBLE | STRING | ARRAY | OBJECT | POINTER
  deriving DecidableEq, Repr

/-- Position of a discriminant in the enumeration (the underlying value of the enum). -/
def type.toNat : type → Nat
  | .NULL_ => 0
  | .BOOL_ => 1
  | .INTEGER => 2
  | .DOUBLE => 3
  | .STRING => 4
  | .ARRAY => 5
  | .OBJECT => 6
  | .POINTER => 7

instance : LT type := ⟨fun a b => a.toNat < b.toNat⟩

instance (a b : type) : Decidable (a < b) := inferInstanceAs (Decidable (a.toNat < b.toNat))

/-- The class `value_base< Traits >`: the discriminant `m_type` together with the member of
`m_union` that is live for it. -/
inductive value where
  | null
  | bool (b : Bool)
  | integer (i : Int)
  | double (d : Rat)
  | string (s : String)
  | array (a : List value)
  | object (o : List (String × value))
  | pointer (p : Option value)

/-- Modelled from the spec: `internal/value_union.hh` is not among the sources.  The union
`m_union` holds exactly one payload, the one matching the discriminant; what its member `p`
yields while another member is live is not fixed by the sources.  A `punning` tells, for a
value that is not a POINTER, whether that read yields the null pointer; any other pointer
read this way does not point to a value. -/
abbrev punning : Type := value → Bool

/-- A punning under which storage that is all zero bits reads as the null pointer: that of
Integer 0 and of Double 0.0. -/
def zero_reads_null : punning
  | .integer i => decide (i = 0)
  | .double d => decide (d = 0)
  | _ => false

namespace value

/-- Member function `type()`. -/
def type : value → tao.json.type
  | .null => .NULL_
  | .bool _ => .BOOL_
  | .integer _ => .INTEGER
  | .double _ => .DOUBLE
  | .string _ => .STRING
  | .array _ => .ARRAY
  | .object _ => .OBJECT
  | .pointer _ => .POINTER

/-- Member function `unsafe_get_pointer()`: returns `m_union.p`.  On a value of another type
the result is the null pointer (`some none`) or a pointer that does not point to a value
(`none`), as the punning `z` tells. -/
def unsafe_get_pointer (z : punning) : value → Option (Option value)
  | .pointer p => some p
  | .null => if z .null then some none else none
  | .bool b => if z (.bool b) then some none else none
  | .integer i => if z (.integer i) then some none else none
  | .double d => if z (.double d) then some none else none
  | .string s => if z (.string s) then some none else none
  | .array a => if z (.array a) then some none else none
  | .object o => if z (.object o) then some none else none

end value

namespace internal

/-- The friend `operator==( const T & lhs, std::nullptr_t )` of the specialisation
`totally_ordered< T, std::nullptr_t, type::NULL_ >` (lines 119-130). -/
def eq_nullptr : value → Bool
  | .pointer (some p) => eq_nullptr p
  | .pointer none => true
  | .null => true
  | _ => false

/-- The friend `operator<( const T &, std::nullptr_t )` of the same specialisation
(lines 132-135). -/
def lt_nullptr (_lhs : value) : Bool := false

/-- The friend `operator>( const T & lhs, std::nullptr_t )` of the same specialisation
(lines 137-148): for a value that is not a POINTER it is `lhs.type() > type::NULL_`. -/
def gt_nullptr : value → Bool
  | .pointer (some p) => gt_nullptr p
  | .pointer none => false
  | .null => false
  | _ => true

end internal

/-- Modelled from the spec: `external/operators.hpp` is not among the sources.  The base class
`operators::totally_ordered< T, std::nullptr_t >` supplies the commuted comparison
`nullptr == rhs`, which calls `rhs == nullptr`. -/
def nullptr_eq (rhs : value) : Bool := internal.eq_nullptr rhs

/-- Modelled from the spec: `external/operators.hpp` is not among the sources.  The commuted
comparison `nullptr < rhs` calls `rhs > nullptr`. -/
def nullptr_lt (rhs : value) : Bool := internal.gt_nullptr rhs

/-- Lines 952-957 of `operator==`, reached with an `lhs` that is not a POINTER and an `rhs`
that is one: `if ( const auto * p = lhs.unsafe_get_pointer() ) return lhs == * p;
else return lhs == nullptr;`.  The pointer is read from `lhs`; when it is not null it does
not point to a value and `lhs == * p` has no defined result. -/
def eq_through_lhs_pointer (z : punning) (lhs : value) : Option Bool :=
  match lhs.unsafe_get_pointer z with
  | some none => some (internal.eq_nullptr lhs)
  | _ => none

/-- Lines 995-1000 of `operator<`, reached with an `lhs` that is not a POINTER and an `rhs`
that is one: `if ( const auto * p = lhs.unsafe_get_pointer() ) return lhs < * p;
else return lhs < nullptr;`. -/
def lt_through_lhs_pointer (z : punning) (lhs : value) : Option Bool :=
  match lhs.unsafe_get_pointer z with
  | some none => some (internal.lt_nullptr lhs)
  | _ => none

mutual

/-- Value-to-value `operator==` (lines 939-980). -/
def operator_eq (z : punning) (lhs rhs : value) : Option Bool :=
  match lhs, rhs with
  -- lhs.type() == type::POINTER
  | .pointer (some p), rhs => operator_eq z p rhs
  | .pointer none, rhs => some (nullptr_eq rhs)
  -- lhs.type() != rhs.type() and rhs.type() == type::POINTER
  | .null, .pointer _ => eq_through_lhs_pointer z .null
  | .bool a, .pointer _ => eq_through_lhs_pointer z (.bool a)
  | .integer a, .pointer _ => eq_through_lhs_pointer z (.integer a)
  | .double a, .pointer _ => eq_through_lhs_pointer z (.double a)
  | .string a, .pointer _ => eq_through_lhs_pointer z (.string a)
  | .array a, .pointer _ => eq_through_lhs_pointer z (.array a)
  | .object a, .pointer _ => eq_through_lhs_pointer z (.object a)
  -- lhs.type() == rhs.type(): the switch
  | .null, .null => some true
  | .bool a, .bool b => some (a == b)
  | .integer a, .integer b => some (decide (a = b))
  | .double a, .double b => some (decide (a = b))
  | .string a, .string b => some (decide (a = b))
  | .array a, .array b => if a.length = b.length then vector_equal z a b else some false
  | .object a, .object b => if a.length = b.length then map_equal z a b else some false
  -- lhs.type() != rhs.type(), rhs not a POINTER
  | _, _ => some false
termination_by sizeOf lhs + sizeOf rhs

/-- The loop of `std::equal` over two vectors of the same size, with `operator==` on the
elements; `std::vector`'s `operator==` calls it after comparing the sizes. -/
def vector_equal (z : punning) (a b : List value) : Option Bool :=
  match a, b with
  | [], _ => some true
  | _ :: _, [] => none
  | x :: xs, y :: ys =>
    match operator_eq z x y with
    | none => none
    | some false => some false
    | some true => vector_equal z xs ys
termination_by sizeOf a + sizeOf b

/-- The loop of `std::equal` over the entries of two maps of the same size; entries are
compared by `std::pair`'s `operator==`: `x.first == y.first && x.second == y.second`. -/
def map_equal (z : punning) (a b : List (String × value)) : Option Bool :=
  match a, b with
  | [], _ => some true
  | _ :: _, [] => none
  | (k, x) :: xs, (l, y) :: ys =>
    if k = l then
      match operator_eq z x y with
      | none => none
      | some false => some false
      | some true => map_equal z xs ys
    else some false
termination_by sizeOf a + sizeOf b

end

mutual

/-- Value-to-value `operator<` (lines 982-1023). -/
def operator_lt (z : punning) (lhs rhs : value) : Option Bool :=
  match lhs, rhs with
  -- lhs.type() == type::POINTER
  | .pointer (some p), rhs => operator_lt z p rhs
  | .pointer none, rhs => some (nullptr_lt rhs)
  -- lhs.type() != rhs.type() and rhs.type() == type::POINTER
  | .null, .pointer _ => lt_through_lhs_pointer z .null
  | .bool a, .pointer _ => lt_through_lhs_pointer z (.bool a)
  | .integer a, .pointer _ => lt_through_lhs_pointer z (.integer a)
  | .double a, .pointer _ => lt_through_lhs_pointer z (.double a)
  | .string a, .pointer _ => lt_through_lhs_pointer z (.string a)
  | .array a, .pointer _ => lt_through_lhs_pointer z (.array a)
  | .object a, .pointer _ => lt_through_lhs_pointer z (.object a)
  -- lhs.type() == rhs.type(): the switch
  | .null, .null => some false
  | .bool a, .bool b => some (decide (a < b))
  | .integer a, .integer b => some (decide (a < b))
  | .double a, .double b => some (decide (a < b))
  | .string a, .string b => some (decide (a < b))
  | .array a, .array b => vector_lexicographical_compare z a b
  | .object a, .object b => map_lexicographical_compare z a b
  -- lhs.type() != rhs.type(), rhs not a POINTER
  | lhs, rhs => some (decide (lhs.type < rhs.type))
termination_by sizeOf lhs + sizeOf rhs

/-- The function `std::lexicographical_compare` over two vectors, with `operator<` on the
elements: `std::vector`'s `operator<`. -/
def vector_lexicographical_compare (z : punning) (a b : List value) : Option Bool :=
  match a, b with
  | [], [] => some false
  | [], _ :: _ => some true
  | _ :: _, [] => some false
  | x :: xs, y :: ys =>
    match operator_lt z x y with
    | none => none
    | some true => some true
    | some false =>
      match operator_lt z y x with
      | none => none
      | some true => some false
      | some false => vector_lexicographical_compare z xs ys
termination_by sizeOf a + sizeOf b

/-- The `operator<` of `std::pair< const std::string, value >`:
`x.first < y.first || ( !( y.first < x.first ) && x.second < y.second )`. -/
def pair_lt (z : punning) (k : String) (x : value) (l : String) (y : value) : Option Bool :=
  if k < l then some true
  else if l < k then some false
  else operator_lt z x y
termination_by sizeOf x + sizeOf y + 1

/-- The function `std::lexicographical_compare` over the entries of two maps, with the
`operator<` of the entries: `std::map`'s `operator<`. -/
def map_lexicographical_compare (z : punning) (a b : List (String × value)) : Option Bool :=
  match a, b with
  | [], [] => some false
  | [], _ :: _ => some true
  | _ :: _, [] => some false
  | (k, x) :: xs, (l, y) :: ys =>
    match pair_lt z k x l y with
    | none => none
    | some true => some true
    | some false =>
      match pair_lt z l y k x with
      | none => none
      | some true => some false
      | some false => map_lexicographical_compare z xs ys
termination_by sizeOf a + sizeOf b

end

/-- Modelled from the spec: `external/operators.hpp` is not among the sources.  The base class
`operators::totally_ordered< value_base >` derives `lhs > rhs` from `operator<` with the
operands exchanged. -/
def operator_gt (z : punning) (lhs rhs : value) : Option Bool := operator_lt z rhs lhs

/-- The `operator==` of `std::vector< value >`: the sizes, then `std::equal`. -/
def vector_eq (z : punning) (a b : List value) : Option Bool :=
  if a.length = b.length then vector_equal z a b else some false

/-- The `operator==` of `std::map< std::string, value >`: the sizes, then `std::equal`. -/
def map_eq (z : punning) (a b : List (String × value)) : Option Bool :=
  if a.length = b.length then map_equal z a b else some false

/-- The second operand `U` of a comparison `internal::totally_ordered< T, U, E >`: a raw C++
value that is not a `value_base` (the integer types all have `E = type::INTEGER`, `float`
and `double` have `E = type::DOUBLE`, `std::string` and `const char *` have
`E = type::STRING`). -/
inductive raw where
  | bool (b : Bool)
  | integer (i : Int)
  | double (d : Rat)
  | string (s : String)
  | array (a : List value)
  | object (o : List (String × value))

/-- The template argument `E` that the base-class list of `value_base` pairs with `U`. -/
def raw.E : raw → type
  | .bool _ => .BOOL_
  | .integer _ => .INTEGER
  | .double _ => .DOUBLE
  | .string _ => .STRING
  | .array _ => .ARRAY
  | .object _ => .OBJECT

/-- The constructor `value_base( T && v )`: `unsafe_assign` through `traits< T >::assign`. -/
def raw.to_value : raw → value
  | .bool b => .bool b
  | .integer i => .integer i
  | .double d => .double d
  | .string s => .string s
  | .array a => .array a
  | .object o => .object o

namespace internal.totally_ordered

/-- The friend `operator==( const T & lhs, const U & rhs )` (lines 75-86). -/
def operator_eq (z : punning) : value → raw → Option Bool
  | .pointer (some p), rhs => operator_eq z p rhs
  | .pointer none, _ => some false
  -- ( lhs.type() == E ) && ( lhs.get< E >() == rhs )
  | .bool a, .bool b => some (a == b)
  | .integer a, .integer b => some (decide (a = b))
  | .double a, .double b => some (decide (a = b))
  | .string a, .string b => some (decide (a = b))
  | .array a, .array b => vector_eq z a b
  | .object a, .object b => map_eq z a b
  | _, _ => some false

/-- The friend `operator<( const T & lhs, const U & rhs )` (lines 88-99). -/
def operator_lt (z : punning) : value → raw → Option Bool
  | .pointer (some p), rhs => operator_lt z p rhs
  | .pointer none, _ => some false
  -- ( lhs.type() < E ) || ( ( lhs.type() == E ) && ( lhs.get< E >() < rhs ) )
  | .bool a, .bool b => some (decide (a < b))
  | .integer a, .integer b => some (decide (a < b))
  | .double a, .double b => some (decide (a < b))
  | .string a, .string b => some (decide (a < b))
  | .array a, .array b => vector_lexicographical_compare z a b
  | .object a, .object b => map_lexicographical_compare z a b
  | lhs, rhs => some (decide (lhs.type < rhs.E))

/-- The friend `operator>( const T & lhs, const U & rhs )` (lines 101-112); on two vectors or
two maps `a > b` is the standard library's `b < a`. -/
def operator_gt (z : punning) : value → raw → Option Bool
  | .pointer (some p), rhs => operator_gt z p rhs
  | .pointer none, _ => some true
  -- ( lhs.type() > E ) || ( ( lhs.type() == E ) && ( lhs.get< E >() > rhs ) )
  | .bool a, .bool b => some (decide (a > b))
  | .integer a, .integer b => some (decide (a > b))
  | .double a, .double b => some (decide (a > b))
  | .string a, .string b => some (decide (a > b))
  | .array a, .array b => vector_lexicographical_compare z b a
  | .object a, .object b => map_lexicographical_compare z b a
  | lhs, rhs => some (decide (lhs.type > rhs.E))

end internal.totally_ordered

/-- Two values are equivalent under `operator<`: both comparisons return and neither value
is less than the other. -/
def equivalent (z : punning) (x y : value) : Prop :=
  operator_lt z x y = some false ∧ operator_lt z y x = some false

/-- Modelled from the spec: `internal/throw.hh` is not among the sources.  Its macro
`THROW_TYPE_ERROR( m_type )` throws the spec's `TypeMismatch` for the discriminant found, and
`CHECK_TYPE_ERROR( m_type, E )` throws it when `m_type` is not `E`: the exception
`type_error`.  The other two exceptions are the
`std::runtime_error( "duplicate key detected: " + k )` of `operator+=`, the
`std::runtime_error( "key not found: " + k )` of `operator-=` (the spec's `KeyNotFound`),
the `std::out_of_range` that `std::vector::at` and `std::map::at` throw (the spec's index
error of a checked array access), and the
`std::runtime_error( "non-finite double value invalid for json" )` of `unsafe_assign_double`
(the spec's `NonFiniteNumber`). -/
inductive error where
  | type_error (t : type)
  | duplicate_key (k : String)
  | key_not_found (k : String)
  | out_of_range
  | non_finite

/-- The call `m_union.o.emplace( k, v )` of `unsafe_emplace` (lines 710-714):
`std::map::emplace` leaves the map unchanged when an entry with key `k` exists and otherwise
inserts the entry at its place in the key order; the flag is the `second` of the returned
pair. -/
def map_emplace (k : String) (v : value) :
    List (String × value) → List (String × value) × Bool
  | [] => ([(k, v)], true)
  | (l, w) :: rest =>
    if k < l then ((k, v) :: (l, w) :: rest, true)
    else if l < k then ((l, w) :: (map_emplace k v rest).1, (map_emplace k v rest).2)
    else ((l, w) :: rest, false)

/-- Member function `unsafe_emplace_prepare()` (lines 698-708). -/
def unsafe_emplace_prepare : value → Except error value
  | .null => .ok (.object [])
  | .object o => .ok (.object o)
  | v => .error (.type_error v.type)

/-- The loop of `operator+=` (lines 752-757 and 764-769) over the entries `o` of the object:
the map after the loop and the exception that ended it, if any. -/
def plus_eq_loop (o : List (String × value)) :
    List (String × value) → List (String × value) × Option error
  | [] => (o, none)
  | (k, x) :: l =>
    if (map_emplace k x o).2 then plus_eq_loop (map_emplace k x o).1 l
    else ((map_emplace k x o).1, some (.duplicate_key k))

/-- Member function `operator+=` on a list of pairs (lines 749-771): the value after the call
and the exception thrown, if any. -/
def operator_plus_eq (v : value) (l : List (String × value)) : value × Option error :=
  match unsafe_emplace_prepare v with
  | .error e => (v, some e)
  | .ok (.object o) => (.object (plus_eq_loop o l).1, (plus_eq_loop o l).2)
  | .ok w => (w, none)

/-- The constructor from an initializer list of pairs (lines 200-213 and 581-597):
`unsafe_emplace_object()` followed by `*this += l`. -/
def value.of_pairs (l : List (String × value)) : value × Option error :=
  operator_plus_eq (.object []) l

/-- The lexicographic rule for two sequences of values: either at the first position where
the elements are not equivalent the element of `a` is less than the element of `b`, or `a`
is shorter than `b` and equivalent to it at every position of `a`. -/
def lex_rule (z : punning) (a b : List value) : Prop :=
  (∃ (i : Nat) (x y : value), a[i]? = some x ∧ b[i]? = some y ∧
      (∀ (j : Nat) (u v : value),
        j < i → a[j]? = some u → b[j]? = some v → equivalent z u v) ∧
      ¬ equivalent z x y ∧ operator_lt z x y = some true) ∨
  (a.length < b.length ∧
    ∀ (j : Nat) (u v : value), a[j]? = some u → b[j]? = some v → equivalent z u v)

/-- The function `std::lexicographical_compare` over an element comparison `f` that may have
no defined result. -/
def lexicographical_compare {α : Type} (f : α → α → Option Bool) :
    List α → List α → Option Bool
  | [], [] => some false
  | [], _ :: _ => some true
  | _ :: _, [] => some false
  | x :: xs, y :: ys =>
    match f x y with
    | none => none
    | some true => some true
    | some false =>
      match f y x with
      | none => none
      | some true => some false
      | some false => lexicographical_compare f xs ys

/-- The comparison `f` is transitive at `x`, also through equivalent elements. -/
structure transitive_at {α : Type} (f : α → α → Option Bool) (x : α) : Prop where
  lt_lt : ∀ y z, f x y = some true → f y z = some true → f x z = some true
  lt_eqv : ∀ y z, f x y = some true → f y z = some false → f z y = some false →
    f x z = some true
  eqv_lt : ∀ y z, f x y = some false → f y x = some false → f y z = some true →
    f x z = some true
  eqv_eqv : ∀ y z, f x y = some false → f y x = some false → f y z = some false →
    f z y = some false → f x z = some false ∧ f z x = some false

/-- The entries of a map compared by `pair_lt`. -/
def entry_lt (z : punning) (p q : String × value) : Option Bool := pair_lt z p.1 p.2 q.1 q.2

/-- The value is a chain of References that ends in an absent Reference. -/
def value.ends_absent : value → Bool
  | .pointer none => true
  | .pointer (some p) => ends_absent p
  | _ => false

/-- The entries of a `std::map< std::string, value >` in iteration order: the keys ascend
strictly. -/
def map_sorted (o : List (String × value)) : Prop := o.Pairwise (fun p q => p.1 < q.1)

/-- The keys of the entries. -/
def map_keys (o : List (String × value)) : List String := o.map Prod.fst

/-- Member function `unsafe_emplace_back_prepare()` (lines 659-669): a Null becomes an empty
Array, an Array is left as it is, every other discriminant throws. -/
def unsafe_emplace_back_prepare : value → Except error value
  | .null => .ok (.array [])
  | .array a => .ok (.array a)
  | v => .error (.type_error v.type)

/-- Member function `emplace_back( v )` (lines 677-682): `unsafe_emplace_back_prepare()`, then
`m_union.a.emplace_back( v )`.  The value after the call and the exception thrown, if
any. -/
def emplace_back (v x : value) : value × Option error :=
  match unsafe_emplace_back_prepare v with
  | .error e => (v, some e)
  | .ok (.array a) => (.array (a ++ [x]), none)
  | .ok w => (w, none)

/-- The loop of `append` (lines 734-736 and 744-746): one `unsafe_emplace_back` per element
of the list, in list order. -/
def append_loop (a : List value) : List value → List value
  | [] => a
  | e :: l => append_loop (a ++ [e]) l

/-- Member function `append( l )` (lines 729-747): `unsafe_emplace_back_prepare()`, a
`reserve`, then the loop.  The value after the call and the exception thrown, if any. -/
def append (v : value) (l : List value) : value × Option error :=
  match unsafe_emplace_back_prepare v with
  | .error e => (v, some e)
  | .ok (.array a) => (.array (append_loop a l), none)
  | .ok w => (w, none)

/-- The static member function `array( ts ... )` (lines 220-226): a default-constructed
value, which is Null, and `append` of the arguments. -/
def value.array_of (l : List value) : value := (append .null l).1

/-- Member function `emplace( k, v )` (lines 716-721): `unsafe_emplace_prepare()`, then
`m_union.o.emplace( k, v )`.  The value after the call and either the exception thrown or
the `second` of the returned pair. -/
def emplace (v : value) (k : String) (x : value) : value × Except error Bool :=
  match unsafe_emplace_prepare v with
  | .error e => (v, .error e)
  | .ok (.object o) => (.object (map_emplace k x o).1, .ok (map_emplace k x o).2)
  | .ok w => (w, .ok false)

/-- The call `erase( k )` of `std::map`: removes the entry with key `k`, if there is one, and
returns the number of entries removed. -/
def map_erase (k : String) : List (String × value) → List (String × value) × Nat
  | [] => ([], 0)
  | (l, w) :: rest =>
    if k < l then ((l, w) :: rest, 0)
    else if l < k then ((l, w) :: (map_erase k rest).1, (map_erase k rest).2)
    else (rest, 1)

/-- Member function `get_object()` (lines 392-396): `CHECK_TYPE_ERROR( m_type, OBJECT )`, then
the map. -/
def get_object : value → Except error (List (String × value))
  | .object o => .ok o
  | v => .error (.type_error v.type)

/-- Member function `operator-=( const std::string & k )` (lines 773-779).  The value after
the call and the exception thrown, if any. -/
def operator_minus_eq (v : value) (k : String) : value × Option error :=
  match get_object v with
  | .error e => (v, some e)
  | .ok o =>
    if (map_erase k o).2 = 0 then (.object (map_erase k o).1, some (.key_not_found k))
    else (.object (map_erase k o).1, none)

/-- Member function `flatten()` (lines 814-844), as the value of `*this` after the call.
The body has, in the case OBJECT of its switch, the statement `e.flatten()` for each `e` of
`m_union.o` (lines 829-831); such an `e` is an entry of the map, a
`std::pair< const std::string, value_base >`, which has no member `flatten`.  The statement
is ill-formed whatever the discriminant of `*this` is, so the member function cannot be
instantiated: no call of `flatten()`, on any value, has a result. -/
def flatten (_v : value) : Option value := none

mutual

/-- The value has no node of discriminant POINTER, at any depth. -/
def value.pointer_free : value → Bool
  | .array a => pointer_free_elements a
  | .object o => pointer_free_entries o
  | .pointer _ => false
  | _ => true

/-- No element of the vector has a node of discriminant POINTER. -/
def pointer_free_elements : List value → Bool
  | [] => true
  | e :: es => e.pointer_free && pointer_free_elements es

/-- No mapped value of the map has a node of discriminant POINTER. -/
def pointer_free_entries : List (String × value) → Bool
  | [] => true
  | (_, e) :: es => e.pointer_free && pointer_free_entries es

end

/-- The loop of `operator-=` on a list of keys (lines 784-788) over the entries `o` of the
object: the map after the loop and the exception that ended it, if any. -/
def minus_eq_loop (o : List (String × value)) :
    List String → List (String × value) × Option error
  | [] => (o, none)
  | k :: l =>
    if (map_erase k o).2 = 0 then ((map_erase k o).1, some (.key_not_found k))
    else minus_eq_loop (map_erase k o).1 l

/-- Member function `operator-=( std::initializer_list< std::string > l )` (lines 781-790):
`get_object()`, then the loop.  The value after the call and the exception thrown, if
any. -/
def operator_minus_eq_list (v : value) (l : List String) : value × Option error :=
  match get_object v with
  | .error e => (v, some e)
  | .ok o => (.object (minus_eq_loop o l).1, (minus_eq_loop o l).2)

/-- The call `at( index )` of `std::vector`: the element at `index`, and `std::out_of_range`
when `index` is not less than the size. -/
def vector_at (index : Nat) (a : List value) : Except error value :=
  match a[index]? with
  | some x => .ok x
  | none => .error .out_of_range

/-- The call `at( key )` of `std::map`: the value mapped to `key`, and `std::out_of_range`
when no entry has that key. -/
def map_at (key : String) : List (String × value) → Except error value
  | [] => .error .out_of_range
  | (l, w) :: rest =>
    if key < l then .error .out_of_range
    else if l < key then map_at key rest
    else .ok w

/-- Member function `at( const std::size_t index )` (lines 513-523):
`CHECK_TYPE_ERROR( m_type, ARRAY )`, then `m_union.a.at( index )`.  The value after the call
and either the exception thrown or the element referred to. -/
def value.at_index (v : value) (index : Nat) : value × Except error value :=
  match v with
  | .array a => (.array a, vector_at index a)
  | w => (w, .error (.type_error w.type))

/-- Member function `at( const std::string & key )` (lines 525-535):
`CHECK_TYPE_ERROR( m_type, OBJECT )`, then `m_union.o.at( key )`.  The value after the call
and either the exception thrown or the mapped value referred to. -/
def value.at_key (v : value) (key : String) : value × Except error value :=
  match v with
  | .object o => (.object o, map_at key o)
  | w => (w, .error (.type_error w.type))

/-- The call `m_union.o[ key ]` of `std::map::operator[]`: when no entry has the key, an
entry with a default-constructed mapped value is inserted at its place in the key order, and
the default constructor `value_base()` (lines 173-174, 936) gives `m_type = NULL_`.  The map
after the call and the mapped value referred to. -/
def map_subscript (key : String) :
    List (String × value) → List (String × value) × value
  | [] => ([(key, .null)], .null)
  | (l, w) :: rest =>
    if key < l then ((key, .null) :: (l, w) :: rest, .null)
    else if l < key then ((l, w) :: (map_subscript key rest).1, (map_subscript key rest).2)
    else ((l, w) :: rest, w)

/-- Member function `operator[]( const std::string & key )` (lines 556-564):
`m_union.o[ key ]` without a check of the discriminant, so there is no defined result
(`none`) unless the value is an Object.  The value after the call and the mapped value
referred to. -/
def value.subscript_key (v : value) (key : String) : Option (value × value) :=
  match v with
  | .object o => some (.object (map_subscript key o).1, (map_subscript key o).2)
  | _ => none

/-- Member function `empty()` (lines 792-811). -/
def value.empty : value → Bool
  | .null => true
  | .bool _ => false
  | .integer _ => false
  | .double _ => false
  | .string s => decide (s.length = 0)
  | .array a => a.isEmpty
  | .object o => o.isEmpty
  | .pointer p => !p.isSome

/-- Member function `get_null()` (lines 344-348). -/
def get_null : value → Except error Unit
  | .null => .ok ()
  | v => .error (.type_error v.type)

/-- Member function `get_bool()` (lines 350-354). -/
def get_bool : value → Except error Bool
  | .bool b => .ok b
  | v => .error (.type_error v.type)

/-- Member function `get_integer()` (lines 356-360). -/
def get_integer : value → Except error Int
  | .integer i => .ok i
  | v => .error (.type_error v.type)

/-- Member function `get_double()` (lines 362-366). -/
def get_double : value → Except error Rat
  | .double d => .ok d
  | v => .error (.type_error v.type)

/-- Member function `get_string()` (lines 368-378). -/
def get_string : value → Except error String
  | .string s => .ok s
  | v => .error (.type_error v.type)

/-- Member function `get_array()` (lines 380-390). -/
def get_array : value → Except error (List value)
  | .array a => .ok a
  | v => .error (.type_error v.type)

/-- Member function `get_pointer()` (lines 404-408): the pointer itself, not its referent. -/
def get_pointer : value → Except error (Option value)
  | .pointer p => .ok p
  | v => .error (.type_error v.type)

/-- The integer types of C++ that a fixed-width integer type of 8, 16, 32 or 64 bits names
(`int8_t` is `signed char`, `uint32_t` is `unsigned int`, `int64_t` is `signed long` or
`signed long long`, `uint64_t` is `unsigned long` or `unsigned long long`). -/
inductive integer_type where
  | signed_char
  | unsigned_char
  | signed_short
  | unsigned_short
  | signed_int
  | unsigned_int
  | signed_long
  | signed_long_long
  | unsigned_long
  | unsigned_long_long
  deriving DecidableEq, Repr

/-- The width of the type in bits, in the LP64 data model. -/
def integer_type.bits : integer_type → Nat
  | .signed_char => 8
  | .unsigned_char => 8
  | .signed_short => 16
  | .unsigned_short => 16
  | .signed_int => 32
  | .unsigned_int => 32
  | .signed_long => 64
  | .signed_long_long => 64
  | .unsigned_long => 64
  | .unsigned_long_long => 64

/-- The type is a signed one. -/
def integer_type.is_signed : integer_type → Bool
  | .signed_char => true
  | .signed_short => true
  | .signed_int => true
  | .signed_long => true
  | .signed_long_long => true
  | _ => false

/-- The least number of the type. -/
def integer_type.lowest (t : integer_type) : Int :=
  if t.is_signed then -(2 ^ (t.bits - 1)) else 0

/-- The greatest number of the type. -/
def integer_type.highest (t : integer_type) : Int :=
  if t.is_signed then 2 ^ (t.bits - 1) - 1 else 2 ^ t.bits - 1

/-- The number `x` is one of the type. -/
def integer_type.holds (t : integer_type) (x : Int) : Prop := t.lowest ≤ x ∧ x ≤ t.highest

/-- The type has a specialisation of `traits` (lines 1056-1134).  Every other type meets the
primary template, whose `static_assert( sizeof( T ) == 0, ... )` (line 1030) rejects the
program. -/
def integer_type.has_traits : integer_type → Bool
  | .unsigned_long => false
  | .unsigned_long_long => false
  | _ => true

/-- The conversion of an integer to `int64_t`: the number modulo `2^64` in the range of the
type. -/
def int64_t_of (x : Int) : Int := (x + 2 ^ 63) % 2 ^ 64 - 2 ^ 63

/-- Member function `unsafe_assign_integer( const int64_t i )` (lines 610-614), on its
argument before the conversion to the parameter type. -/
def unsafe_assign_integer (i : Int) : value := .integer (int64_t_of i)

/-- The constructor `value_base( T && v )` (lines 194-198) for an integer `x` of type `t`:
`Traits< t >::assign( *this, x )`, which is `v.unsafe_assign_integer( x )` in each
specialisation, and no value (`none`) where the program is rejected. -/
def value.of_integer (t : integer_type) (x : Int) : Option value :=
  if t.has_traits then some (unsafe_assign_integer x) else none

/-- Member function `unsafe_assign_bool( b )` (lines 604-608), which `traits< bool >::assign`
calls (lines 1046-1054). -/
def unsafe_assign_bool (b : Bool) : value := .bool b

/-- Member function `unsafe_emplace_string( s )` (lines 631-636), which
`traits< std::string >::assign` and `traits< const char * >::assign` call
(lines 1176-1194). -/
def unsafe_emplace_string (s : String) : value := .string s

/-- A `double` (or a `float`, which converts to `double` without change of its class or
number): a finite one, as the number it denotes, a NaN, or an infinity with its sign. -/
inductive cpp_double where
  | finite (d : Rat)
  | nan
  | infinity (negative : Bool)

/-- The function `std::isfinite`. -/
def isfinite : cpp_double → Bool
  | .finite _ => true
  | _ => false

/-- Member function `unsafe_assign_double_unchecked( d )` (lines 616-621), whose `d` must be
finite: on the number that `d` denotes. -/
def unsafe_assign_double_unchecked (d : Rat) : value := .double d

/-- Member function `unsafe_assign_double( d )` (lines 623-629), which
`traits< double >::assign` and `traits< float >::assign` call (lines 1136-1154): the throw
for a non-finite `d`, else `unsafe_assign_double_unchecked( d )`.  The last case of the
`match` is not reached. -/
def unsafe_assign_double (d : cpp_double) : Except error value :=
  if !isfinite d then .error .non_finite
  else
    match d with
    | .finite q => .ok (unsafe_assign_double_unchecked q)
    | _ => .error .non_finite

/-- The constructor `value_base( T && v )` (lines 194-198) for a `double` or a `float`. -/
def value.of_double (d : cpp_double) : Except error value := unsafe_assign_double d

/-- Member function `destroy()` (lines 929-933): `unsafe_destroy()`, then
`m_type = NULL_`. -/
def destroy (_v : value) : value := .null

/-- The assignment `operator=( T && v )` (lines 258-264) for a `double` or a `float`:
`destroy()`, then `unsafe_assign( v )`.  The value after the call and the exception thrown,
if any: when `unsafe_assign` throws, the value is as `destroy()` has left it. -/
def assign_double (v : value) (d : cpp_double) : value × Option error :=
  match unsafe_assign_double d with
  | .ok w => (w, none)
  | .error e => (destroy v, some e)

/-- What the standard library leaves in a `std::string`, `std::vector` and `std::map` that
has been moved from: a valid state that the standard does not specify. -/
structure moved_from where
  s : String → String
  a : List value → List value
  o : List (String × value) → List (String × value)

/-- Member function `seize( value_base && r )` (lines 847-875) with the `m_type = r.m_type`
that follows each of its calls, on a `*this` without payload: the value of `*this` and the
value of `r` after it. -/
def seize (μ : moved_from) : value → value × value
  | .null => (.null, .null)
  | .bool b => (.bool b, .bool b)
  | .integer i => (.integer i, .integer i)
  | .double d => (.double d, .double d)
  | .string s => (.string s, .string (μ.s s))
  | .array a => (.array a, .array (μ.a a))
  | .object o => (.object o, .object (μ.o o))
  | .pointer p => (.pointer p, .pointer p)

/-- The two operands `*this` and `r` of an assignment: one and the same object
(`this == & r`), or two objects that share no storage. -/
inductive operands where
  | same (v : value)
  | distinct (lhs rhs : value)

/-- The move assignment `operator=( value_base && r )` (lines 228-236). -/
def operator_move_assign (μ : moved_from) : operands → operands
  | .same v => .same v
  | .distinct _ r => .distinct (seize μ r).1 (seize μ r).2

/-- The value of `*this` in the operands. -/
def operands.target : operands → value
  | .same v => v
  | .distinct lhs _ => lhs

/-- The value of `r` in the operands. -/
def operands.source : operands → value
  | .same v => v
  | .distinct _ r => r

mutual

/-- Every Object in the value, at every depth and in the referents, is a map: its keys
ascend strictly. -/
def value.well_formed : value → Prop
  | .array a => elements_well_formed a
  | .object o => map_sorted o ∧ entries_well_formed o
  | .pointer (some p) => p.well_formed
  | _ => True

/-- Every element of the vector is well formed. -/
def elements_well_formed : List value → Prop
  | [] => True
  | e :: es => e.well_formed ∧ elements_well_formed es

/-- Every mapped value of the entries is well formed. -/
def entries_well_formed : List (String × value) → Prop
  | [] => True
  | (_, e) :: es => e.well_formed ∧ entries_well_formed es

end

mutual

/-- Every Object in the value, at every depth and in the referents, has pairwise distinct
keys. -/
def value.keys_unique : value → Prop
  | .array a => elements_keys_unique a
  | .object o => (map_keys o).Nodup ∧ entries_keys_unique o
  | .pointer (some p) => p.keys_unique
  | _ => True

/-- Every element of the vector has pairwise distinct keys in each Object. -/
def elements_keys_unique : List value → Prop
  | [] => True
  | e :: es => e.keys_unique ∧ elements_keys_unique es

/-- Every mapped value of the entries has pairwise distinct keys in each Object. -/
def entries_keys_unique : List (String × value) → Prop
  | [] => True
  | (_, e) :: es => e.keys_unique ∧ entries_keys_unique es

end

/-! ## Theorems -/

/-! ### Evaluation on literals -/

theorem str_a_lt_b : "a" < "b" := String.lt_iff_toList_lt.mpr (by decide)

theorem str_b_not_lt_a : ¬ "b" < "a" :=
  fun h => absurd (String.lt_iff_toList_lt.mp h) (by decide)

theorem type_lt_def (a b : type) : a < b ↔ a.toNat < b.toNat := Iff.rfl

/-! ### Values of different discriminants -/

theorem operator_lt_of_type_ne (z : punning) (a b : value) (ha : a.type ≠ .POINTER)
    (hb : b.type ≠ .POINTER) (hab : a.type ≠ b.type) :
    operator_lt z a b = some (decide (a.type < b.type)) := by
  cases a <;> cases b <;> simp_all [operator_lt, value.type]

theorem operator_eq_of_type_ne (z : punning) (a b : value) (ha : a.type ≠ .POINTER)
    (hb : b.type ≠ .POINTER) (hab : a.type ≠ b.type) : operator_eq z a b = some false := by
  cases a <;> cases b <;> simp_all [operator_eq, value.type]

/-- C4: two values that are not References and have different discriminants compare by the
position of their discriminants in Null < Bool < Integer < Double < String < Array < Object,
whatever their payloads, and are not equal. -/
theorem lt_and_eq_of_type_ne (z : punning) (a b : value) (ha : a.type ≠ .POINTER)
    (hb : b.type ≠ .POINTER) (hab : a.type ≠ b.type) :
    operator_lt z a b = some (decide (a.type < b.type)) ∧ operator_eq z a b = some false :=
  ⟨operator_lt_of_type_ne z a b ha hb hab, operator_eq_of_type_ne z a b ha hb hab⟩

/-- Integer 2 and Double 1.5 have different discriminants: Integer 2 < Double 1.5 is true and
Integer 2 == Double 1.5 is false. -/
theorem lt_and_eq_of_type_ne_witness :
    (value.integer 2).type ≠ .POINTER ∧ (value.double (3 / 2)).type ≠ .POINTER ∧
    (value.integer 2).type ≠ (value.double (3 / 2)).type ∧
    operator_lt zero_reads_null (.integer 2) (.double (3 / 2)) = some true ∧
    operator_eq zero_reads_null (.integer 2) (.double (3 / 2)) = some false :=
  ⟨by decide, by decide, by decide,
    lt_and_eq_of_type_ne zero_reads_null (.integer 2) (.double (3 / 2))
      (by decide) (by decide) (by decide)⟩

/-- Every Integer is less than and unequal to every Double. -/
theorem integer_lt_double (z : punning) (i : Int) (d : Rat) :
    operator_lt z (.integer i) (.double d) = some true ∧
    operator_eq z (.integer i) (.double d) = some false := by
  simp [operator_lt, operator_eq, value.type, type_lt_def, type.toNat]

/-! ### The comparison with a Reference on the right -/

theorem eq_integer_pointer (z : punning) (i : Int) (q : Option value) :
    operator_eq z (.integer i) (.pointer q) = if z (.integer i) then some false else none := by
  cases h : z (.integer i) <;>
    simp [operator_eq, eq_through_lhs_pointer, value.unsafe_get_pointer, internal.eq_nullptr, h]

theorem lt_integer_pointer (z : punning) (i : Int) (q : Option value) :
    operator_lt z (.integer i) (.pointer q) = if z (.integer i) then some false else none := by
  cases h : z (.integer i) <;>
    simp [operator_lt, lt_through_lhs_pointer, value.unsafe_get_pointer, internal.lt_nullptr, h]

/-- C1: for X the Array holding one Reference to Integer 0 and R a Reference to X, the
comparison R == X is not true, whatever the read of `m_union.p` of the Integer yields (it is
false when the read yields null and has no defined result otherwise); the claim says it is
true. -/
theorem eq_reference_to_array_of_reference (z : punning) :
    operator_eq z (.pointer (some (.array [.pointer (some (.integer 0))])))
      (.array [.pointer (some (.integer 0))]) ≠ some true := by
  cases h : z (.integer 0) <;> simp [operator_eq, vector_equal, eq_integer_pointer, h]

/-- C2: for R a Reference to Integer 0, R == Integer 0 is true, but Integer 0 == R is not
(false when the read of `m_union.p` of the Integer yields null, no defined result
otherwise); the claim says both are true. -/
theorem eq_not_symmetric_at_reference (z : punning) :
    operator_eq z (.pointer (some (.integer 0))) (.integer 0) = some true ∧
    operator_eq z (.integer 0) (.pointer (some (.integer 0))) ≠ some true := by
  cases h : z (.integer 0) <;> simp [operator_eq, eq_integer_pointer, h]

/-- C3: for v a Reference to Integer 0, v == v is not true (false when the read of
`m_union.p` of the Integer yields null, no defined result otherwise); the claim says it is
true. -/
theorem eq_not_reflexive_at_reference (z : punning) :
    operator_eq z (.pointer (some (.integer 0))) (.pointer (some (.integer 0)))
      ≠ some true := by
  cases h : z (.integer 0) <;> simp [operator_eq, eq_integer_pointer, h]

/-- C5: for a = Integer 0 and b a Reference to Integer 0, none of a < b, a == b, b < a is
true; the claim says exactly one of them is. -/
theorem no_trichotomy_at_reference (z : punning) :
    operator_lt z (.integer 0) (.pointer (some (.integer 0))) ≠ some true ∧
    operator_eq z (.integer 0) (.pointer (some (.integer 0))) ≠ some true ∧
    operator_lt z (.pointer (some (.integer 0))) (.integer 0) = some false := by
  cases h : z (.integer 0) <;>
    simp [operator_eq, operator_lt, eq_integer_pointer, lt_integer_pointer, h]

/-- C6: let a = [Double 0.0, Integer 1], b = [Reference to Double 0.0, Integer 2] and
c = [Integer 0, Integer 3].  When the storage of Integer 0 and of Double 0.0 reads as the
null pointer, a < b and b < c are true and a < c is false; the claim says that a < c
follows. -/
theorem lt_not_transitive_through_reference (z : punning) (hi : z (.integer 0) = true)
    (hd : z (.double 0) = true) :
    operator_lt z (.array [.double 0, .integer 1])
      (.array [.pointer (some (.double 0)), .integer 2]) = some true ∧
    operator_lt z (.array [.pointer (some (.double 0)), .integer 2])
      (.array [.integer 0, .integer 3]) = some true ∧
    operator_lt z (.array [.double 0, .integer 1])
      (.array [.integer 0, .integer 3]) = some false := by
  simp [operator_lt, vector_lexicographical_compare, lt_through_lhs_pointer,
    value.unsafe_get_pointer, internal.lt_nullptr, value.type, type_lt_def, type.toNat, hi, hd]

/-- The punning `zero_reads_null` reads the storage of Integer 0 and of Double 0.0 as the
null pointer. -/
theorem lt_not_transitive_through_reference_witness :
    zero_reads_null (.integer 0) = true ∧ zero_reads_null (.double 0) = true ∧
    (operator_lt zero_reads_null (.array [.double 0, .integer 1])
      (.array [.pointer (some (.double 0)), .integer 2]) = some true ∧
    operator_lt zero_reads_null (.array [.pointer (some (.double 0)), .integer 2])
      (.array [.integer 0, .integer 3]) = some true ∧
    operator_lt zero_reads_null (.array [.double 0, .integer 1])
      (.array [.integer 0, .integer 3]) = some false) :=
  ⟨by simp [zero_reads_null], by simp [zero_reads_null],
    lt_not_transitive_through_reference zero_reads_null
      (by simp [zero_reads_null]) (by simp [zero_reads_null])⟩

/-! ### Comparison against raw values -/

/-- C7: for v an absent Reference and the raw bool true, v < true is false although
v < Value(true) is true, and v > true is true although Value(true) < v is not; the claim
says the raw and the Value-to-Value comparisons agree. -/
theorem raw_comparison_differs_at_absent_reference (z : punning) :
    internal.totally_ordered.operator_lt z (.pointer none) (.bool true) = some false ∧
    operator_lt z (.pointer none) (raw.bool true).to_value = some true ∧
    internal.totally_ordered.operator_gt z (.pointer none) (.bool true) = some true ∧
    operator_lt z (raw.bool true).to_value (.pointer none) ≠ some true := by
  cases h : z (.bool true) <;>
    simp [internal.totally_ordered.operator_lt, internal.totally_ordered.operator_gt,
      operator_lt, raw.to_value, nullptr_lt, internal.gt_nullptr, lt_through_lhs_pointer,
      value.unsafe_get_pointer, internal.lt_nullptr, h]

/-- C8: for r an absent Reference, r < true is false and r > true is true, while Null < true
is true and Null > true is false; and for w a Reference to Integer 5, r == w is false and
r < w is true, while Null == w is not false and Null < w is not true; the claim says r
compares as Null does. -/
theorem absent_reference_not_as_null (z : punning) :
    internal.totally_ordered.operator_lt z (.pointer none) (.bool true) = some false ∧
    internal.totally_ordered.operator_gt z (.pointer none) (.bool true) = some true ∧
    internal.totally_ordered.operator_lt z .null (.bool true) = some true ∧
    internal.totally_ordered.operator_gt z .null (.bool true) = some false ∧
    operator_eq z (.pointer none) (.pointer (some (.integer 5))) = some false ∧
    operator_eq z .null (.pointer (some (.integer 5))) ≠ some false ∧
    operator_lt z (.pointer none) (.pointer (some (.integer 5))) = some true ∧
    operator_lt z .null (.pointer (some (.integer 5))) ≠ some true := by
  cases h : z .null <;>
    simp [internal.totally_ordered.operator_lt, internal.totally_ordered.operator_gt,
      operator_lt, operator_eq, value.type, raw.E, type_lt_def, type.toNat, nullptr_lt,
      nullptr_eq, internal.gt_nullptr, internal.eq_nullptr, internal.lt_nullptr,
      lt_through_lhs_pointer, eq_through_lhs_pointer, value.unsafe_get_pointer, h]

/-! ### Objects built by insertion -/

/-- C9: the pairs ("a", Reference to Integer 0), ("b", Integer 1) inserted in this order and
in the opposite order build the same Object, and comparing that Object with itself by == is
not true (false when the read of `m_union.p` of the Integer yields null, no defined result
otherwise); the claim says the two Objects compare equal. -/
theorem eq_of_built_objects_not_true (z : punning) :
    (value.of_pairs [("a", .pointer (some (.integer 0))), ("b", .integer 1)]).1
      = .object [("a", .pointer (some (.integer 0))), ("b", .integer 1)] ∧
    (value.of_pairs [("b", .integer 1), ("a", .pointer (some (.integer 0)))]).1
      = .object [("a", .pointer (some (.integer 0))), ("b", .integer 1)] ∧
    operator_eq z (.object [("a", .pointer (some (.integer 0))), ("b", .integer 1)])
      (.object [("a", .pointer (some (.integer 0))), ("b", .integer 1)]) ≠ some true := by
  have h1 : "a" < "b" := str_a_lt_b
  have h2 : ¬ "b" < "a" := str_b_not_lt_a
  cases h : z (.integer 0) <;>
    simp [value.of_pairs, operator_plus_eq, unsafe_emplace_prepare, plus_eq_loop, map_emplace,
      operator_eq, map_equal, eq_integer_pointer, h, h1, h2]

/-! ### Arrays -/

theorem lex_rule_nil (z : punning) (b : List value) : lex_rule z [] b ↔ b ≠ [] := by
  cases b <;> simp [lex_rule]

theorem lex_rule_cons_nil (z : punning) (x : value) (xs : List value) :
    ¬ lex_rule z (x :: xs) [] := by
  simp [lex_rule]

theorem lex_rule_cons_lt (z : punning) (x y : value) (xs ys : List value)
    (h : operator_lt z x y = some true) :
    lex_rule z (x :: xs) (y :: ys) := by
  refine Or.inl ⟨0, x, y, by simp, by simp, ?_, ?_, h⟩
  · intro j u v hj; omega
  · intro he; rw [he.1] at h; cases h

theorem lex_rule_cons_not (z : punning) (x y : value) (xs ys : List value)
    (h : operator_lt z x y ≠ some true)
    (he : ¬ equivalent z x y) : ¬ lex_rule z (x :: xs) (y :: ys) := by
  rintro (⟨i, u, v, hu, hv, hall, -, hlt⟩ | ⟨-, hall⟩)
  · cases i with
    | zero => simp at hu hv; subst hu; subst hv; exact h hlt
    | succ i => exact he (hall 0 x y (by omega) (by simp) (by simp))
  · exact he (hall 0 x y (by simp) (by simp))

theorem lex_rule_cons_equiv (z : punning) (x y : value) (xs ys : List value)
    (he : equivalent z x y) :
    lex_rule z (x :: xs) (y :: ys) ↔ lex_rule z xs ys := by
  constructor
  · rintro (⟨i, u, v, hu, hv, hall, hne, hlt⟩ | ⟨hlen, hall⟩)
    · cases i with
      | zero => simp at hu hv; subst hu; subst hv; exact absurd he hne
      | succ i =>
        refine Or.inl ⟨i, u, v, by simpa using hu, by simpa using hv, ?_, hne, hlt⟩
        intro j p q hj hp hq
        exact hall (j + 1) p q (by omega) (by simpa using hp) (by simpa using hq)
    · refine Or.inr ⟨by simpa using hlen, ?_⟩
      intro j p q hp hq
      exact hall (j + 1) p q (by simpa using hp) (by simpa using hq)
  · rintro (⟨i, u, v, hu, hv, hall, hne, hlt⟩ | ⟨hlen, hall⟩)
    · refine Or.inl ⟨i + 1, u, v, by simpa using hu, by simpa using hv, ?_, hne, hlt⟩
      intro j p q hj hp hq
      cases j with
      | zero => simp at hp hq; subst hp; subst hq; exact he
      | succ j => exact hall j p q (by omega) (by simpa using hp) (by simpa using hq)
    · refine Or.inr ⟨by simpa using hlen, ?_⟩
      intro j p q hp hq
      cases j with
      | zero => simp at hp hq; subst hp; subst hq; exact he
      | succ j => exact hall j p q (by simpa using hp) (by simpa using hq)

theorem vector_lexicographical_compare_iff (z : punning) (a b : List value) :
    vector_lexicographical_compare z a b = some true ↔ lex_rule z a b := by
  induction a generalizing b with
  | nil => cases b <;> simp [vector_lexicographical_compare, lex_rule_nil z]
  | cons x xs ih =>
    cases b with
    | nil => simp [vector_lexicographical_compare, lex_rule_cons_nil z]
    | cons y ys =>
      rw [vector_lexicographical_compare]
      cases hxy : operator_lt z x y with
      | none =>
        simp only [false_iff, reduceCtorEq]
        exact lex_rule_cons_not z x y xs ys (by simp [hxy]) (by simp [equivalent, hxy])
      | some c =>
        cases c with
        | true => simpa using lex_rule_cons_lt z x y xs ys hxy
        | false =>
          cases hyx : operator_lt z y x with
          | none =>
            simp only [false_iff, reduceCtorEq]
            exact lex_rule_cons_not z x y xs ys (by simp [hxy]) (by simp [equivalent, hyx])
          | some d =>
            cases d with
            | true =>
              simp only [false_iff, reduceCtorEq, Option.some.injEq, Bool.false_eq_true]
              exact lex_rule_cons_not z x y xs ys (by simp [hxy]) (by simp [equivalent, hyx])
            | false =>
              simp only []
              rw [ih ys, lex_rule_cons_equiv z x y xs ys ⟨hxy, hyx⟩]

/-- C10: for all Arrays a and b, a < b is true exactly when either at the first index where
the elements are not equivalent z the element of a is less than the element of b, or a is a
proper prefix of b up to equivalence of the elements; [1,2] < [1,2,3] and
[1,3] > [1,2,3]. -/
theorem array_lt_lexicographic (z : punning) :
    (∀ a b : List value, operator_lt z (.array a) (.array b) = some true ↔
      ((∃ (i : Nat) (x y : value), a[i]? = some x ∧ b[i]? = some y ∧
          (∀ (j : Nat) (u v : value),
            j < i → a[j]? = some u → b[j]? = some v → equivalent z u v) ∧
          ¬ equivalent z x y ∧ operator_lt z x y = some true) ∨
        (a.length < b.length ∧
          ∀ (j : Nat) (u v : value), a[j]? = some u → b[j]? = some v → equivalent z u v))) ∧
    operator_lt z (.array [.integer 1, .integer 2])
      (.array [.integer 1, .integer 2, .integer 3]) = some true ∧
    operator_gt z (.array [.integer 1, .integer 3])
      (.array [.integer 1, .integer 2, .integer 3]) = some true := by
  refine ⟨fun a b => ?_, ?_, ?_⟩
  · rw [operator_lt]
    exact vector_lexicographical_compare_iff z a b
  · simp [operator_lt, vector_lexicographical_compare]
  · simp [operator_gt, operator_lt, vector_lexicographical_compare]

/-! ### Transitivity of `operator<` where no misread pointer is null -/

section lex
variable {α : Type} (f : α → α → Option Bool)

theorem lex_nil_right (a : List α) : lexicographical_compare f a [] = some false := by
  cases a <;> simp [lexicographical_compare]

theorem lex_cons_true (x y : α) (xs ys : List α) :
    lexicographical_compare f (x :: xs) (y :: ys) = some true ↔
      f x y = some true ∨
      (f x y = some false ∧ f y x = some false ∧
        lexicographical_compare f xs ys = some true) := by
  rw [lexicographical_compare]
  rcases hxy : f x y with _ | _ | _ <;> rcases hyx : f y x with _ | _ | _ <;> simp

theorem lex_cons_false (x y : α) (xs ys : List α) :
    lexicographical_compare f (x :: xs) (y :: ys) = some false ↔
      (f x y = some false ∧ f y x = some true) ∨
      (f x y = some false ∧ f y x = some false ∧
        lexicographical_compare f xs ys = some false) := by
  rw [lexicographical_compare]
  rcases hxy : f x y with _ | _ | _ <;> rcases hyx : f y x with _ | _ | _ <;> simp

theorem lex_cons_eqv (x y : α) (xs ys : List α) :
    (lexicographical_compare f (x :: xs) (y :: ys) = some false ∧
      lexicographical_compare f (y :: ys) (x :: xs) = some false) ↔
      (f x y = some false ∧ f y x = some false) ∧
      (lexicographical_compare f xs ys = some false ∧
        lexicographical_compare f ys xs = some false) := by
  rw [lex_cons_false, lex_cons_false]
  constructor
  · rintro ⟨⟨h1, h2⟩ | ⟨h1, h2, h3⟩, ⟨h4, h5⟩ | ⟨h4, h5, h6⟩⟩
    · rw [h1] at h5; cases h5
    · rw [h2] at h4; cases h4
    · rw [h1] at h5; cases h5
    · exact ⟨⟨h1, h2⟩, h3, h6⟩
  · rintro ⟨⟨h1, h2⟩, h3, h4⟩
    exact ⟨Or.inr ⟨h1, h2, h3⟩, Or.inr ⟨h2, h1, h4⟩⟩

theorem lex_transitive_at (a : List α) (h : ∀ x ∈ a, transitive_at f x) :
    transitive_at (lexicographical_compare f) a := by
  induction a with
  | nil =>
    refine ⟨?_, ?_, ?_, ?_⟩
    · intro b c h1 h2
      cases b with
      | nil => simp [lexicographical_compare] at h1
      | cons y ys =>
        cases c with
        | nil => simp [lexicographical_compare] at h2
        | cons w zs => simp [lexicographical_compare]
    · intro b c h1 h2 h3
      cases b with
      | nil => simp [lexicographical_compare] at h1
      | cons y ys =>
        cases c with
        | nil => simp [lexicographical_compare] at h3
        | cons w zs => simp [lexicographical_compare]
    · intro b c h1 h2 h3
      cases b with
      | nil =>
        cases c with
        | nil => simp [lexicographical_compare] at h3
        | cons w zs => simp [lexicographical_compare]
      | cons y ys => simp [lexicographical_compare] at h1
    · intro b c h1 h2 h3 h4
      cases b with
      | nil =>
        cases c with
        | nil => simp [lexicographical_compare]
        | cons w zs => simp [lexicographical_compare] at h3
      | cons y ys => simp [lexicographical_compare] at h1
  | cons x xs ih =>
    have hx : transitive_at f x := h x (List.mem_cons_self x xs)
    have ihxs := ih (fun u hu => h u (List.mem_cons_of_mem x hu))
    refine ⟨?_, ?_, ?_, ?_⟩
    · intro b c h1 h2
      cases b with
      | nil => simp [lexicographical_compare] at h1
      | cons y ys =>
        cases c with
        | nil => simp [lexicographical_compare] at h2
        | cons w zs =>
          rw [lex_cons_true] at h1 h2 ⊢
          rcases h1 with h1 | ⟨h1, h1', h1''⟩ <;> rcases h2 with h2 | ⟨h2, h2', h2''⟩
          · exact Or.inl (hx.lt_lt y w h1 h2)
          · exact Or.inl (hx.lt_eqv y w h1 h2 h2')
          · exact Or.inl (hx.eqv_lt y w h1 h1' h2)
          · exact Or.inr ⟨(hx.eqv_eqv y w h1 h1' h2 h2').1, (hx.eqv_eqv y w h1 h1' h2 h2').2,
              ihxs.lt_lt ys zs h1'' h2''⟩
    · intro b c h1 h2 h3
      cases b with
      | nil => simp [lexicographical_compare] at h1
      | cons y ys =>
        cases c with
        | nil => simp [lexicographical_compare] at h3
        | cons w zs =>
          obtain ⟨⟨e1, e2⟩, e3, e4⟩ := (lex_cons_eqv f y w ys zs).mp ⟨h2, h3⟩
          rw [lex_cons_true] at h1 ⊢
          rcases h1 with h1 | ⟨h1, h1', h1''⟩
          · exact Or.inl (hx.lt_eqv y w h1 e1 e2)
          · exact Or.inr ⟨(hx.eqv_eqv y w h1 h1' e1 e2).1, (hx.eqv_eqv y w h1 h1' e1 e2).2,
              ihxs.lt_eqv ys zs h1'' e3 e4⟩
    · intro b c h1 h2 h3
      cases b with
      | nil =>
        cases c with
        | nil => simp [lexicographical_compare] at h3
        | cons w zs => simp [lexicographical_compare] at h2
      | cons y ys =>
        cases c with
        | nil => simp [lexicographical_compare] at h3
        | cons w zs =>
          obtain ⟨⟨e1, e2⟩, e3, e4⟩ := (lex_cons_eqv f x y xs ys).mp ⟨h1, h2⟩
          rw [lex_cons_true] at h3 ⊢
          rcases h3 with h3 | ⟨h3, h3', h3''⟩
          · exact Or.inl (hx.eqv_lt y w e1 e2 h3)
          · exact Or.inr ⟨(hx.eqv_eqv y w e1 e2 h3 h3').1, (hx.eqv_eqv y w e1 e2 h3 h3').2,
              ihxs.eqv_lt ys zs e3 e4 h3''⟩
    · intro b c h1 h2 h3 h4
      cases b with
      | nil => simp [lexicographical_compare] at h2
      | cons y ys =>
        cases c with
        | nil => simp [lexicographical_compare] at h4
        | cons w zs =>
          obtain ⟨⟨e1, e2⟩, e3, e4⟩ := (lex_cons_eqv f x y xs ys).mp ⟨h1, h2⟩
          obtain ⟨⟨g1, g2⟩, g3, g4⟩ := (lex_cons_eqv f y w ys zs).mp ⟨h3, h4⟩
          exact (lex_cons_eqv f x w xs zs).mpr
            ⟨hx.eqv_eqv y w e1 e2 g1 g2, ihxs.eqv_eqv ys zs e3 e4 g3 g4⟩

end lex

/-- A total comparison on a linear order. -/
theorem linear_transitive_at {α : Type} [LinearOrder α] (d : ∀ a b : α, Decidable (a < b))
    (x : α) : transitive_at (fun a b : α => some (@decide (a < b) (d a b))) x := by
  refine ⟨?_, ?_, ?_, ?_⟩
  · intro y w h1 h2
    simp only [Option.some.injEq, decide_eq_true_eq] at *
    exact lt_trans h1 h2
  · intro y w h1 h2 h3
    simp only [Option.some.injEq, decide_eq_true_eq, decide_eq_false_iff_not, not_lt] at *
    exact lt_of_lt_of_le h1 h3
  · intro y w h1 h2 h3
    simp only [Option.some.injEq, decide_eq_true_eq, decide_eq_false_iff_not, not_lt] at *
    exact lt_of_le_of_lt h2 h3
  · intro y w h1 h2 h3 h4
    simp only [Option.some.injEq, decide_eq_true_eq, decide_eq_false_iff_not, not_lt] at *
    exact ⟨le_trans h3 h1, le_trans h2 h4⟩

theorem vector_lexicographical_compare_eq (z : punning) (a b : List value) :
    vector_lexicographical_compare z a b = lexicographical_compare (operator_lt z) a b := by
  induction a generalizing b with
  | nil => cases b <;> simp [vector_lexicographical_compare, lexicographical_compare]
  | cons x xs ih =>
    cases b with
    | nil => simp [vector_lexicographical_compare, lexicographical_compare]
    | cons y ys => rw [vector_lexicographical_compare, lexicographical_compare, ih ys]

theorem map_lexicographical_compare_eq (z : punning) (a b : List (String × value)) :
    map_lexicographical_compare z a b = lexicographical_compare (entry_lt z) a b := by
  induction a generalizing b with
  | nil => cases b <;> simp [map_lexicographical_compare, lexicographical_compare]
  | cons x xs ih =>
    cases b with
    | nil => simp [map_lexicographical_compare, lexicographical_compare]
    | cons y ys =>
      obtain ⟨k, x⟩ := x
      obtain ⟨l, y⟩ := y
      rw [map_lexicographical_compare, lexicographical_compare, ih ys]
      rfl

theorem entry_lt_true (z : punning) (k l : String) (x y : value) :
    entry_lt z (k, x) (l, y) = some true ↔
      k < l ∨ (k = l ∧ operator_lt z x y = some true) := by
  unfold entry_lt
  rw [pair_lt]
  rcases lt_trichotomy k l with h | h | h
  · simp [h]
  · subst h; simp
  · simp [h, not_lt_of_gt h, ne_of_gt h]

theorem entry_lt_false (z : punning) (k l : String) (x y : value) :
    entry_lt z (k, x) (l, y) = some false ↔
      l < k ∨ (k = l ∧ operator_lt z x y = some false) := by
  unfold entry_lt
  rw [pair_lt]
  rcases lt_trichotomy k l with h | h | h
  · simp [h, not_lt_of_gt h, ne_of_lt h]
  · subst h; simp
  · simp [h, not_lt_of_gt h]

theorem entry_lt_eqv (z : punning) (k l : String) (x y : value) :
    (entry_lt z (k, x) (l, y) = some false ∧ entry_lt z (l, y) (k, x) = some false) ↔
      k = l ∧ operator_lt z x y = some false ∧ operator_lt z y x = some false := by
  rw [entry_lt_false z, entry_lt_false z]
  constructor
  · rintro ⟨h1 | ⟨h1, h2⟩, h3 | ⟨h3, h4⟩⟩
    · exact absurd h3 (not_lt_of_gt h1)
    · subst h3; exact absurd h1 (lt_irrefl _)
    · subst h1; exact absurd h3 (lt_irrefl _)
    · exact ⟨h1, h2, h4⟩
  · rintro ⟨h1, h2, h3⟩
    exact ⟨Or.inr ⟨h1, h2⟩, Or.inr ⟨h1.symm, h3⟩⟩

theorem entry_transitive_at (z : punning) (k : String) (x : value)
    (hx : transitive_at (operator_lt z) x) : transitive_at (entry_lt z) (k, x) := by
  refine ⟨?_, ?_, ?_, ?_⟩
  · rintro ⟨l, y⟩ ⟨m, w⟩ h1 h2
    rw [entry_lt_true z] at h1 h2 ⊢
    rcases h1 with h1 | ⟨h1, h1'⟩ <;> rcases h2 with h2 | ⟨h2, h2'⟩
    · exact Or.inl (lt_trans h1 h2)
    · subst h2; exact Or.inl h1
    · subst h1; exact Or.inl h2
    · subst h1; subst h2; exact Or.inr ⟨rfl, hx.lt_lt y w h1' h2'⟩
  · rintro ⟨l, y⟩ ⟨m, w⟩ h1 h2 h3
    obtain ⟨e, e1, e2⟩ := (entry_lt_eqv z l m y w).mp ⟨h2, h3⟩
    subst e
    rw [entry_lt_true z] at h1 ⊢
    rcases h1 with h1 | ⟨h1, h1'⟩
    · exact Or.inl h1
    · exact Or.inr ⟨h1, hx.lt_eqv y w h1' e1 e2⟩
  · rintro ⟨l, y⟩ ⟨m, w⟩ h1 h2 h3
    obtain ⟨e, e1, e2⟩ := (entry_lt_eqv z k l x y).mp ⟨h1, h2⟩
    subst e
    rw [entry_lt_true z] at h3 ⊢
    rcases h3 with h3 | ⟨h3, h3'⟩
    · exact Or.inl h3
    · exact Or.inr ⟨h3, hx.eqv_lt y w e1 e2 h3'⟩
  · rintro ⟨l, y⟩ ⟨m, w⟩ h1 h2 h3 h4
    obtain ⟨e, e1, e2⟩ := (entry_lt_eqv z k l x y).mp ⟨h1, h2⟩
    obtain ⟨g, g1, g2⟩ := (entry_lt_eqv z l m y w).mp ⟨h3, h4⟩
    subst e; subst g
    exact (entry_lt_eqv z k k x w).mpr ⟨rfl, hx.eqv_eqv y w e1 e2 g1 g2⟩

theorem type_eq_of_toNat_eq (a b : type) (h : a.toNat = b.toNat) : a = b := by
  cases a <;> cases b <;> simp [type.toNat] at h ⊢

theorem ends_absent_of_lt_pointer (z : punning) (hnull : ∀ v, z v = false) :
    ∀ (y : value) (q : Option value) (r : Bool),
    operator_lt z y (.pointer q) = some r → y.ends_absent = true
  | .pointer (some p), q, r, h => by
    rw [operator_lt] at h
    simpa [value.ends_absent] using ends_absent_of_lt_pointer z hnull p q r h
  | .pointer none, _, _, _ => by simp [value.ends_absent]
  | .null, _, _, h => by
    simp [operator_lt, lt_through_lhs_pointer, value.unsafe_get_pointer, hnull] at h
  | .bool _, _, _, h => by
    simp [operator_lt, lt_through_lhs_pointer, value.unsafe_get_pointer, hnull] at h
  | .integer _, _, _, h => by
    simp [operator_lt, lt_through_lhs_pointer, value.unsafe_get_pointer, hnull] at h
  | .double _, _, _, h => by
    simp [operator_lt, lt_through_lhs_pointer, value.unsafe_get_pointer, hnull] at h
  | .string _, _, _, h => by
    simp [operator_lt, lt_through_lhs_pointer, value.unsafe_get_pointer, hnull] at h
  | .array _, _, _, h => by
    simp [operator_lt, lt_through_lhs_pointer, value.unsafe_get_pointer, hnull] at h
  | .object _, _, _, h => by
    simp [operator_lt, lt_through_lhs_pointer, value.unsafe_get_pointer, hnull] at h

theorem lt_of_ends_absent (z : punning) (hnull : ∀ v, z v = false) :
    ∀ (y w : value), y.ends_absent = true →
    operator_lt z y w = some (internal.gt_nullptr w)
  | .pointer (some p), w, h => by
    rw [operator_lt]
    exact lt_of_ends_absent z hnull p w (by simpa [value.ends_absent] using h)
  | .pointer none, w, _ => by simp [operator_lt, nullptr_lt]
  | .null, _, h => by simp [value.ends_absent] at h
  | .bool _, _, h => by simp [value.ends_absent] at h
  | .integer _, _, h => by simp [value.ends_absent] at h
  | .double _, _, h => by simp [value.ends_absent] at h
  | .string _, _, h => by simp [value.ends_absent] at h
  | .array _, _, h => by simp [value.ends_absent] at h
  | .object _, _, h => by simp [value.ends_absent] at h

theorem gt_nullptr_of_ends_absent : ∀ (w : value), w.ends_absent = true →
    internal.gt_nullptr w = false
  | .pointer (some p), h => by
    rw [internal.gt_nullptr]
    exact gt_nullptr_of_ends_absent p (by simpa [value.ends_absent] using h)
  | .pointer none, _ => by simp [internal.gt_nullptr]
  | .null, h => by simp [value.ends_absent] at h
  | .bool _, h => by simp [value.ends_absent] at h
  | .integer _, h => by simp [value.ends_absent] at h
  | .double _, h => by simp [value.ends_absent] at h
  | .string _, h => by simp [value.ends_absent] at h
  | .array _, h => by simp [value.ends_absent] at h
  | .object _, h => by simp [value.ends_absent] at h

theorem type_of_ends_absent (y : value) (h : y.ends_absent = true) : y.type = .POINTER := by
  cases y <;> first | rfl | simp [value.ends_absent] at h

theorem rhs_not_pointer_of_lt (z : punning) (hnull : ∀ v, z v = false) (a y : value)
    (r : Bool) (ha : a.type ≠ .POINTER)
    (h : operator_lt z a y = some r) : y.type ≠ .POINTER := by
  cases a <;> cases y <;>
    simp_all [operator_lt, value.type, lt_through_lhs_pointer, value.unsafe_get_pointer]

theorem gt_nullptr_of_lt (z : punning) (hnull : ∀ v, z v = false) :
    ∀ (y w : value), operator_lt z y w = some true →
    internal.gt_nullptr w = true
  | .pointer (some p), w, h => gt_nullptr_of_lt z hnull p w (by rwa [operator_lt] at h)
  | .pointer none, w, h => by simpa [operator_lt, nullptr_lt] using h
  | .null, w, h => by
    cases w <;> simp [operator_lt, internal.gt_nullptr, value.type, type_lt_def, type.toNat,
      lt_through_lhs_pointer, value.unsafe_get_pointer, hnull] at h ⊢
  | .bool _, w, h => by
    cases w <;> simp [operator_lt, internal.gt_nullptr, value.type, type_lt_def, type.toNat,
      lt_through_lhs_pointer, value.unsafe_get_pointer, hnull] at h ⊢
  | .integer _, w, h => by
    cases w <;> simp [operator_lt, internal.gt_nullptr, value.type, type_lt_def, type.toNat,
      lt_through_lhs_pointer, value.unsafe_get_pointer, hnull] at h ⊢
  | .double _, w, h => by
    cases w <;> simp [operator_lt, internal.gt_nullptr, value.type, type_lt_def, type.toNat,
      lt_through_lhs_pointer, value.unsafe_get_pointer, hnull] at h ⊢
  | .string _, w, h => by
    cases w <;> simp [operator_lt, internal.gt_nullptr, value.type, type_lt_def, type.toNat,
      lt_through_lhs_pointer, value.unsafe_get_pointer, hnull] at h ⊢
  | .array _, w, h => by
    cases w <;> simp [operator_lt, internal.gt_nullptr, value.type, type_lt_def, type.toNat,
      lt_through_lhs_pointer, value.unsafe_get_pointer, hnull] at h ⊢
  | .object _, w, h => by
    cases w <;> simp [operator_lt, internal.gt_nullptr, value.type, type_lt_def, type.toNat,
      lt_through_lhs_pointer, value.unsafe_get_pointer, hnull] at h ⊢

theorem ends_absent_of_eqv (z : punning) (hnull : ∀ v, z v = false) (x y : value)
    (h1 : operator_lt z x y = some false)
    (h2 : operator_lt z y x = some false) (hp : x.type = .POINTER ∨ y.type = .POINTER) :
    x.ends_absent = true ∧ y.ends_absent = true := by
  rcases hp with hp | hp
  · cases x <;> simp [value.type] at hp
    rename_i q
    have hy := ends_absent_of_lt_pointer z hnull y q false h2
    have hy' := type_of_ends_absent y hy
    cases y <;> simp [value.type] at hy'
    rename_i q'
    exact ⟨ends_absent_of_lt_pointer z hnull _ q' false h1, hy⟩
  · cases y <;> simp [value.type] at hp
    rename_i q
    have hx := ends_absent_of_lt_pointer z hnull x q false h1
    have hx' := type_of_ends_absent x hx
    cases x <;> simp [value.type] at hx'
    rename_i q'
    exact ⟨hx, ends_absent_of_lt_pointer z hnull _ q' false h2⟩

theorem type_eq_of_eqv (z : punning) (x y : value) (hx : x.type ≠ .POINTER)
    (hy : y.type ≠ .POINTER)
    (h1 : operator_lt z x y = some false) (h2 : operator_lt z y x = some false) :
    x.type = y.type := by
  by_contra hne
  rw [operator_lt_of_type_ne z x y hx hy hne] at h1
  rw [operator_lt_of_type_ne z y x hy hx (Ne.symm hne)] at h2
  simp only [Option.some.injEq, decide_eq_false_iff_not, type_lt_def, not_lt] at h1 h2
  exact hne (type_eq_of_toNat_eq _ _ (le_antisymm h2 h1))

theorem gt_nullptr_of_type (x : value) (hx : x.type ≠ .POINTER) :
    internal.gt_nullptr x = decide (x.type ≠ .NULL_) := by
  cases x <;> simp [value.type, internal.gt_nullptr] at hx ⊢

theorem gt_nullptr_eq_of_eqv (z : punning) (hnull : ∀ v, z v = false) (x y : value)
    (h1 : operator_lt z x y = some false)
    (h2 : operator_lt z y x = some false) : internal.gt_nullptr x = internal.gt_nullptr y := by
  by_cases hp : x.type = .POINTER ∨ y.type = .POINTER
  · obtain ⟨hx, hy⟩ := ends_absent_of_eqv z hnull x y h1 h2 hp
    rw [gt_nullptr_of_ends_absent x hx, gt_nullptr_of_ends_absent y hy]
  · push_neg at hp
    rw [gt_nullptr_of_type x hp.1, gt_nullptr_of_type y hp.2,
      type_eq_of_eqv z x y hp.1 hp.2 h1 h2]

theorem rank_le_of_lt (z : punning) (x y : value) (hx : x.type ≠ .POINTER)
    (hy : y.type ≠ .POINTER)
    (h : operator_lt z x y = some true) : x.type.toNat ≤ y.type.toNat := by
  by_cases e : x.type = y.type
  · rw [e]
  · rw [operator_lt_of_type_ne z x y hx hy e] at h
    simp only [Option.some.injEq, decide_eq_true_eq, type_lt_def] at h
    exact le_of_lt h

theorem lt_of_rank_lt (z : punning) (x y : value) (hx : x.type ≠ .POINTER)
    (hy : y.type ≠ .POINTER)
    (h : x.type.toNat < y.type.toNat) : operator_lt z x y = some true := by
  have hne : x.type ≠ y.type := fun e => by rw [e] at h; exact lt_irrefl _ h
  rw [operator_lt_of_type_ne z x y hx hy hne]
  simpa [type_lt_def] using h

theorem rank_lt_of_lt (z : punning) (x y : value) (hx : x.type ≠ .POINTER)
    (hy : y.type ≠ .POINTER)
    (hne : x.type ≠ y.type) (h : operator_lt z x y = some true) :
    x.type.toNat < y.type.toNat := by
  rw [operator_lt_of_type_ne z x y hx hy hne] at h
  simpa [type_lt_def] using h

theorem plain_transitive_at (z : punning) (hnull : ∀ v, z v = false) (a : value)
    (ha : a.type ≠ .POINTER)
    (hs : ∀ y w, y.type = a.type → w.type = a.type →
      (operator_lt z a y = some true → operator_lt z y w = some true →
        operator_lt z a w = some true) ∧
      (operator_lt z a y = some true → operator_lt z y w = some false →
        operator_lt z w y = some false → operator_lt z a w = some true) ∧
      (operator_lt z a y = some false → operator_lt z y a = some false →
        operator_lt z y w = some true → operator_lt z a w = some true) ∧
      (operator_lt z a y = some false → operator_lt z y a = some false →
        operator_lt z y w = some false → operator_lt z w y = some false →
        operator_lt z a w = some false ∧ operator_lt z w a = some false)) :
    transitive_at (operator_lt z) a := by
  refine ⟨?_, ?_, ?_, ?_⟩
  · intro y w h1 h2
    have hy := rhs_not_pointer_of_lt z hnull a y true ha h1
    have hw := rhs_not_pointer_of_lt z hnull y w true hy h2
    by_cases e1 : a.type = y.type
    · by_cases e2 : y.type = w.type
      · exact (hs y w e1.symm (e1.trans e2).symm).1 h1 h2
      · have h := rank_lt_of_lt z y w hy hw e2 h2
        exact lt_of_rank_lt z a w ha hw (by rw [e1]; exact h)
    · have h := rank_lt_of_lt z a y ha hy e1 h1
      have h' := rank_le_of_lt z y w hy hw h2
      exact lt_of_rank_lt z a w ha hw (lt_of_lt_of_le h h')
  · intro y w h1 h2 h3
    have hy := rhs_not_pointer_of_lt z hnull a y true ha h1
    have hw := rhs_not_pointer_of_lt z hnull y w false hy h2
    have e2 := type_eq_of_eqv z y w hy hw h2 h3
    by_cases e1 : a.type = y.type
    · exact (hs y w e1.symm (e1.trans e2).symm).2.1 h1 h2 h3
    · have h := rank_lt_of_lt z a y ha hy e1 h1
      exact lt_of_rank_lt z a w ha hw (by rw [← e2]; exact h)
  · intro y w h1 h2 h3
    have hy := rhs_not_pointer_of_lt z hnull a y false ha h1
    have hw := rhs_not_pointer_of_lt z hnull y w true hy h3
    have e1 := type_eq_of_eqv z a y ha hy h1 h2
    by_cases e2 : y.type = w.type
    · exact (hs y w e1.symm (e1.trans e2).symm).2.2.1 h1 h2 h3
    · have h := rank_lt_of_lt z y w hy hw e2 h3
      exact lt_of_rank_lt z a w ha hw (by rw [e1]; exact h)
  · intro y w h1 h2 h3 h4
    have hy := rhs_not_pointer_of_lt z hnull a y false ha h1
    have hw := rhs_not_pointer_of_lt z hnull y w false hy h3
    have e1 := type_eq_of_eqv z a y ha hy h1 h2
    have e2 := type_eq_of_eqv z y w hy hw h3 h4
    exact (hs y w e1.symm (e1.trans e2).symm).2.2.2 h1 h2 h3 h4

theorem pointer_transitive_at (z : punning) (hnull : ∀ v, z v = false) (a : value)
    (ha : a.type = .POINTER)
    (h12 : (∀ y w, operator_lt z a y = some true → operator_lt z y w = some true →
        operator_lt z a w = some true) ∧
      (∀ y w, operator_lt z a y = some true → operator_lt z y w = some false →
        operator_lt z w y = some false → operator_lt z a w = some true)) :
    transitive_at (operator_lt z) a := by
  refine ⟨h12.1, h12.2, ?_, ?_⟩
  · intro y w h1 h2 h3
    obtain ⟨hax, hyx⟩ := ends_absent_of_eqv z hnull a y h1 h2 (Or.inl ha)
    rw [lt_of_ends_absent z hnull a w hax]
    rw [lt_of_ends_absent z hnull y w hyx] at h3
    exact h3
  · intro y w h1 h2 h3 h4
    obtain ⟨hax, hyx⟩ := ends_absent_of_eqv z hnull a y h1 h2 (Or.inl ha)
    obtain ⟨-, hwx⟩ := ends_absent_of_eqv z hnull y w h3 h4 (Or.inl (type_of_ends_absent y hyx))
    rw [lt_of_ends_absent z hnull a w hax, lt_of_ends_absent z hnull w a hwx,
      gt_nullptr_of_ends_absent a hax, gt_nullptr_of_ends_absent w hwx]
    exact ⟨rfl, rfl⟩

theorem conj_of_transitive_at {β : Type} (g : β → β → Option Bool) (p : β)
    (T : transitive_at g p) (q r : β) :
    (g p q = some true → g q r = some true → g p r = some true) ∧
    (g p q = some true → g q r = some false → g r q = some false → g p r = some true) ∧
    (g p q = some false → g q p = some false → g q r = some true → g p r = some true) ∧
    (g p q = some false → g q p = some false → g q r = some false → g r q = some false →
      g p r = some false ∧ g r p = some false) :=
  ⟨T.lt_lt q r, T.lt_eqv q r, T.eqv_lt q r, T.eqv_eqv q r⟩

theorem operator_lt_transitive_at (z : punning) (hnull : ∀ v, z v = false) (a : value) :
    transitive_at (operator_lt z) a := by
  induction' hn : sizeOf a using Nat.strong_induction_on with n ih generalizing a
  cases a with
  | pointer q =>
    cases q with
    | none =>
      refine pointer_transitive_at z hnull _ rfl ⟨?_, ?_⟩
      · intro y w h1 h2
        rw [lt_of_ends_absent z hnull (.pointer none) w rfl]
        exact congrArg some (gt_nullptr_of_lt z hnull y w h2)
      · intro y w h1 h2 h3
        rw [lt_of_ends_absent z hnull (.pointer none) y rfl] at h1
        rw [lt_of_ends_absent z hnull (.pointer none) w rfl,
          ← gt_nullptr_eq_of_eqv z hnull y w h2 h3]
        exact h1
    | some p =>
      have ihp : transitive_at (operator_lt z) p :=
        ih (sizeOf p) (by rw [← hn]; simp; omega) p rfl
      refine pointer_transitive_at z hnull _ rfl ⟨?_, ?_⟩
      · intro y w h1 h2
        rw [operator_lt] at h1 ⊢
        exact ihp.lt_lt y w h1 h2
      · intro y w h1 h2 h3
        rw [operator_lt] at h1 ⊢
        exact ihp.lt_eqv y w h1 h2 h3
  | null =>
    refine plain_transitive_at z hnull _ (by simp [value.type]) ?_
    intro y w hy hw
    cases y <;> simp [value.type] at hy
    cases w <;> simp [value.type] at hw
    simp [operator_lt, lt_through_lhs_pointer, value.unsafe_get_pointer, hnull]
  | bool b =>
    refine plain_transitive_at z hnull _ (by simp [value.type]) ?_
    intro y w hy hw
    cases y <;> simp [value.type] at hy
    cases w <;> simp [value.type] at hw
    simp only [operator_lt]
    exact conj_of_transitive_at _ b (linear_transitive_at _ b) _ _
  | integer b =>
    refine plain_transitive_at z hnull _ (by simp [value.type]) ?_
    intro y w hy hw
    cases y <;> simp [value.type] at hy
    cases w <;> simp [value.type] at hw
    simp only [operator_lt]
    exact conj_of_transitive_at _ b (linear_transitive_at _ b) _ _
  | double b =>
    refine plain_transitive_at z hnull _ (by simp [value.type]) ?_
    intro y w hy hw
    cases y <;> simp [value.type] at hy
    cases w <;> simp [value.type] at hw
    simp only [operator_lt]
    exact conj_of_transitive_at _ b (linear_transitive_at _ b) _ _
  | string b =>
    refine plain_transitive_at z hnull _ (by simp [value.type]) ?_
    intro y w hy hw
    cases y <;> simp [value.type] at hy
    cases w <;> simp [value.type] at hw
    simp only [operator_lt]
    exact conj_of_transitive_at _ b (linear_transitive_at _ b) _ _
  | array xs =>
    refine plain_transitive_at z hnull _ (by simp [value.type]) ?_
    intro y w hy hw
    cases y <;> simp [value.type] at hy
    cases w <;> simp [value.type] at hw
    simp only [operator_lt, vector_lexicographical_compare_eq z]
    refine conj_of_transitive_at _ xs (lex_transitive_at (operator_lt z) xs ?_) _ _
    intro x hx
    have hlt := List.sizeOf_lt_of_mem hx
    exact ih (sizeOf x) (by rw [← hn]; simp; omega) x rfl
  | object o =>
    refine plain_transitive_at z hnull _ (by simp [value.type]) ?_
    intro y w hy hw
    cases y <;> simp [value.type] at hy
    cases w <;> simp [value.type] at hw
    simp only [operator_lt, map_lexicographical_compare_eq z]
    refine conj_of_transitive_at _ o (lex_transitive_at (entry_lt z) o ?_) _ _
    intro e he
    have hlt := List.sizeOf_lt_of_mem he
    obtain ⟨k, x⟩ := e
    refine entry_transitive_at z k x (ih (sizeOf x) ?_ x rfl)
    rw [← hn]
    simp at hlt ⊢
    omega

/-- Where no read of `m_union.p` of a value that is not a POINTER yields the null pointer,
`operator<` is transitive on the comparisons that have a result. -/
theorem operator_lt_trans_of_no_null_read (z : punning) (hnull : ∀ v, z v = false)
    (a b c : value) (hab : operator_lt z a b = some true)
    (hbc : operator_lt z b c = some true) : operator_lt z a c = some true :=
  (operator_lt_transitive_at z hnull a).lt_lt b c hab hbc

/-! ### Insertion into an object -/

theorem map_emplace_of_not_mem (k : String) (v : value) (o : List (String × value))
    (hk : k ∉ o.map Prod.fst) :
    (map_emplace k v o).2 = true ∧ ((map_emplace k v o).1).Perm ((k, v) :: o) := by
  induction o with
  | nil => simp [map_emplace]
  | cons e rest ih =>
    obtain ⟨l, w⟩ := e
    simp only [List.map_cons, List.mem_cons, not_or] at hk
    obtain ⟨hne, hrest⟩ := hk
    rw [map_emplace]
    by_cases h1 : k < l
    · simp [h1]
    · have h2 : l < k := lt_of_le_of_ne (not_lt.mp h1) (Ne.symm hne)
      simp only [h1, h2, if_true, if_false]
      exact ⟨(ih hrest).1, ((ih hrest).2.cons (l, w)).trans (List.Perm.swap _ _ _)⟩

theorem map_emplace_sorted (k : String) (v : value) (o : List (String × value))
    (hk : k ∉ o.map Prod.fst) (ho : o.Pairwise (fun p q => p.1 < q.1)) :
    ((map_emplace k v o).1).Pairwise (fun p q => p.1 < q.1) := by
  induction o with
  | nil => simp [map_emplace]
  | cons e rest ih =>
    obtain ⟨l, w⟩ := e
    simp only [List.map_cons, List.mem_cons, not_or] at hk
    obtain ⟨hne, hrest⟩ := hk
    rw [List.pairwise_cons] at ho
    rw [map_emplace]
    by_cases h1 : k < l
    · simp only [h1, if_true]
      refine List.Pairwise.cons ?_ (List.Pairwise.cons ho.1 ho.2)
      intro q hq
      rcases List.mem_cons.mp hq with rfl | hq
      · exact h1
      · exact lt_trans h1 (ho.1 q hq)
    · have h2 : l < k := lt_of_le_of_ne (not_lt.mp h1) (Ne.symm hne)
      simp only [h1, h2, if_true, if_false]
      refine List.Pairwise.cons ?_ (ih hrest ho.2)
      intro q hq
      have hq' := (map_emplace_of_not_mem k v rest hrest).2.subset hq
      rcases List.mem_cons.mp hq' with rfl | hq'
      · exact h2
      · exact ho.1 q hq'

theorem plus_eq_loop_of_nodup (l o : List (String × value))
    (hl : (l.map Prod.fst).Nodup) (hd : ∀ k ∈ l.map Prod.fst, k ∉ o.map Prod.fst)
    (ho : o.Pairwise (fun p q => p.1 < q.1)) :
    (plus_eq_loop o l).2 = none ∧
    ((plus_eq_loop o l).1).Pairwise (fun p q => p.1 < q.1) ∧
    ((plus_eq_loop o l).1).Perm (l ++ o) := by
  induction l generalizing o with
  | nil => exact ⟨rfl, ho, List.Perm.refl _⟩
  | cons e rest ih =>
    obtain ⟨k, x⟩ := e
    simp only [List.map_cons, List.nodup_cons] at hl
    have hk : k ∉ o.map Prod.fst := hd k (by simp)
    obtain ⟨hflag, hperm⟩ := map_emplace_of_not_mem k x o hk
    have hsorted := map_emplace_sorted k x o hk ho
    rw [plus_eq_loop]
    simp only [hflag, if_true]
    have hd' : ∀ k' ∈ rest.map Prod.fst, k' ∉ (map_emplace k x o).1.map Prod.fst := by
      intro k' hk' hmem
      have hmem' := (hperm.map Prod.fst).subset hmem
      simp only [List.map_cons, List.mem_cons] at hmem'
      rcases hmem' with rfl | hmem'
      · exact hl.1 hk'
      · exact hd k' (by simp [hk']) hmem'
    obtain ⟨h1, h2, h3⟩ := ih (map_emplace k x o).1 hl.2 hd' hsorted
    refine ⟨h1, h2, h3.trans ?_⟩
    exact ((List.Perm.append_left rest hperm).trans List.perm_middle)

theorem eq_of_perm_of_pairwise_fst_lt (a b : List (String × value)) (h : a.Perm b)
    (ha : a.Pairwise (fun p q => p.1 < q.1)) (hb : b.Pairwise (fun p q => p.1 < q.1)) :
    a = b := by
  haveI : IsAntisymm (String × value) (fun p q => p.1 < q.1) :=
    ⟨fun p q h1 h2 => absurd h1 (not_lt_of_gt h2)⟩
  exact List.eq_of_perm_of_sorted h ha hb

/-- Two lists of pairs with pairwise distinct keys that are permutations of each other build
the same Object, without an exception. -/
theorem of_pairs_eq_of_perm (l₁ l₂ : List (String × value)) (h : l₁.Perm l₂)
    (hnd : (l₁.map Prod.fst).Nodup) :
    value.of_pairs l₁ = value.of_pairs l₂ ∧ (value.of_pairs l₁).2 = none := by
  have hnd₂ : (l₂.map Prod.fst).Nodup := (h.map Prod.fst).nodup_iff.mp hnd
  obtain ⟨a1, a2, a3⟩ := plus_eq_loop_of_nodup l₁ [] hnd (by simp) List.Pairwise.nil
  obtain ⟨b1, b2, b3⟩ := plus_eq_loop_of_nodup l₂ [] hnd₂ (by simp) List.Pairwise.nil
  have e : (plus_eq_loop [] l₁).1 = (plus_eq_loop [] l₂).1 :=
    eq_of_perm_of_pairwise_fst_lt _ _
      (a3.trans ((h.append_right []).trans b3.symm)) a2 b2
  simp only [value.of_pairs, operator_plus_eq, unsafe_emplace_prepare, e, a1, b1, and_self]

/-! ### Appending to an array -/

theorem append_loop_eq (a l : List value) : append_loop a l = a ++ l := by
  induction l generalizing a with
  | nil => simp [append_loop]
  | cons e l ih => simp [append_loop, ih]

/-- C14: appending a value x to a Null value, by `emplace_back` or by `append` with the
one-element list, yields the Array whose only element is x, of length 1. -/
theorem append_to_null (x : value) :
    emplace_back .null x = (.array [x], none) ∧ append .null [x] = (.array [x], none) ∧
    [x].length = 1 := by
  simp [emplace_back, append, unsafe_emplace_back_prepare, append_loop]

/-- C15: on a value that is neither Null nor an Array (a Bool, Integer, Double, String,
Object or Reference), `emplace_back` and `append` with any list, the empty one included,
throw the type error and leave the value unchanged. -/
theorem append_type_mismatch (v : value) (hn : v.type ≠ .NULL_) (ha : v.type ≠ .ARRAY)
    (x : value) (l : List value) :
    emplace_back v x = (v, some (.type_error v.type)) ∧
    append v l = (v, some (.type_error v.type)) := by
  cases v <;>
    simp [emplace_back, append, unsafe_emplace_back_prepare, value.type] at hn ha ⊢

/-- Appending to the Object with the entry "a" -> 1, also the empty list, throws the type
error for OBJECT and leaves the Object unchanged. -/
theorem append_type_mismatch_witness :
    (value.object [("a", .integer 1)]).type ≠ .NULL_ ∧
    (value.object [("a", .integer 1)]).type ≠ .ARRAY ∧
    emplace_back (.object [("a", .integer 1)]) .null
      = (.object [("a", .integer 1)], some (.type_error .OBJECT)) ∧
    append (.object [("a", .integer 1)]) []
      = (.object [("a", .integer 1)], some (.type_error .OBJECT)) :=
  ⟨by decide, by decide,
    append_type_mismatch (.object [("a", .integer 1)]) (by decide) (by decide) .null []⟩

/-- C16: appending the list l to the Array holding a yields the Array holding a followed by
l, of length `a.length + l.length`; the builder `array( x1, ..., xn )` yields the Array
x1, ..., xn. -/
theorem append_preserves_order (a l : List value) :
    append (.array a) l = (.array (a ++ l), none) ∧
    (a ++ l).length = a.length + l.length ∧
    value.array_of l = .array l := by
  simp [append, value.array_of, unsafe_emplace_back_prepare, append_loop_eq]

/-! ### Inserting into an object -/

theorem map_emplace_of_mem (k : String) (x : value) (o : List (String × value))
    (ho : map_sorted o) (hk : k ∈ map_keys o) : map_emplace k x o = (o, false) := by
  induction o with
  | nil => simp [map_keys] at hk
  | cons e rest ih =>
    obtain ⟨l, w⟩ := e
    unfold map_sorted at ho
    rw [List.pairwise_cons] at ho
    simp only [map_keys, List.map_cons, List.mem_cons] at hk
    rw [map_emplace]
    by_cases h1 : k < l
    · exfalso
      rcases hk with rfl | hk
      · exact lt_irrefl _ h1
      · obtain ⟨q, hq, rfl⟩ := List.mem_map.mp hk
        exact lt_irrefl _ (lt_trans h1 (ho.1 q hq))
    · by_cases h2 : l < k
      · have hk' : k ∈ map_keys rest := by
          rcases hk with rfl | hk
          · exact absurd h2 (lt_irrefl _)
          · exact hk
        simp only [h1, h2, if_true, if_false, ih ho.2 hk']
      · simp only [h1, h2, if_false]

theorem plus_eq_loop_conflict (pre : List (String × value)) (k : String) (x : value)
    (post o : List (String × value)) (ho : map_sorted o)
    (hnd : (map_keys pre).Nodup) (hd : ∀ k' ∈ map_keys pre, k' ∉ map_keys o)
    (hk : k ∈ map_keys o ∨ k ∈ map_keys pre) :
    plus_eq_loop o (pre ++ (k, x) :: post)
      = ((plus_eq_loop o pre).1, some (.duplicate_key k)) := by
  induction pre generalizing o with
  | nil =>
    have hk' : k ∈ map_keys o := by
      rcases hk with hk | hk
      · exact hk
      · simp [map_keys] at hk
    simp [plus_eq_loop, map_emplace_of_mem k x o ho hk']
  | cons e pre ih =>
    obtain ⟨k1, x1⟩ := e
    simp only [map_keys, List.map_cons, List.nodup_cons] at hnd
    have hk1 : k1 ∉ o.map Prod.fst := hd k1 (by simp [map_keys])
    obtain ⟨hflag, hperm⟩ := map_emplace_of_not_mem k1 x1 o hk1
    have hsorted : map_sorted (map_emplace k1 x1 o).1 := map_emplace_sorted k1 x1 o hk1 ho
    have hkeys : ∀ k', k' ∈ map_keys (map_emplace k1 x1 o).1 ↔
        k' = k1 ∨ k' ∈ map_keys o := by
      intro k'
      have := (hperm.map Prod.fst).mem_iff (a := k')
      simpa [map_keys] using this
    have hd' : ∀ k' ∈ map_keys pre, k' ∉ map_keys (map_emplace k1 x1 o).1 := by
      intro k' hk' hmem
      rcases (hkeys k').mp hmem with rfl | hmem
      · exact hnd.1 hk'
      · exact hd k' (by simp [map_keys] at hk' ⊢; exact Or.inr hk') hmem
    have hk2 : k ∈ map_keys (map_emplace k1 x1 o).1 ∨ k ∈ map_keys pre := by
      rcases hk with hk | hk
      · exact Or.inl ((hkeys k).mpr (Or.inr hk))
      · simp only [map_keys, List.map_cons, List.mem_cons] at hk
        rcases hk with rfl | hk
        · exact Or.inl ((hkeys k).mpr (Or.inl rfl))
        · exact Or.inr hk
    have := ih (map_emplace k1 x1 o).1 hsorted hnd.2 hd' hk2
    simp only [List.cons_append, plus_eq_loop, hflag, if_true]
    exact this

theorem exists_first_conflict (l : List (String × value)) (present : List String)
    (h : ¬ ((map_keys l).Nodup ∧ ∀ k ∈ map_keys l, k ∉ present)) :
    ∃ pre k x post, l = pre ++ (k, x) :: post ∧ (map_keys pre).Nodup ∧
      (∀ k' ∈ map_keys pre, k' ∉ present) ∧ (k ∈ present ∨ k ∈ map_keys pre) := by
  induction l generalizing present with
  | nil => simp [map_keys] at h
  | cons e l ih =>
    obtain ⟨k1, x1⟩ := e
    by_cases h1 : k1 ∈ present
    · exact ⟨[], k1, x1, l, rfl, by simp [map_keys], by simp [map_keys], Or.inl h1⟩
    · have h' : ¬ ((map_keys l).Nodup ∧ ∀ k ∈ map_keys l, k ∉ k1 :: present) := by
        rintro ⟨hnd, hd⟩
        apply h
        refine ⟨?_, ?_⟩
        · simp only [map_keys, List.map_cons, List.nodup_cons]
          exact ⟨fun hmem => hd k1 hmem (List.mem_cons_self _ _), hnd⟩
        · intro k hk
          simp only [map_keys, List.map_cons, List.mem_cons] at hk
          rcases hk with rfl | hk
          · exact h1
          · exact fun hp => hd k hk (List.mem_cons_of_mem _ hp)
      obtain ⟨pre, k, x, post, hl, hnd, hd, hk⟩ := ih (k1 :: present) h'
      refine ⟨(k1, x1) :: pre, k, x, post, by simp [hl], ?_, ?_, ?_⟩
      · simp only [map_keys, List.map_cons, List.nodup_cons]
        exact ⟨fun hmem => hd k1 hmem (List.mem_cons_self _ _), hnd⟩
      · intro k' hk'
        simp only [map_keys, List.map_cons, List.mem_cons] at hk'
        rcases hk' with rfl | hk'
        · exact h1
        · exact fun hp => hd k' hk' (List.mem_cons_of_mem _ hp)
      · rcases hk with hk | hk
        · rcases List.mem_cons.mp hk with rfl | hk
          · exact Or.inr (by simp [map_keys])
          · exact Or.inl hk
        · exact Or.inr (by simp only [map_keys, List.map_cons, List.mem_cons]; exact Or.inr hk)

/-- C17: `emplace` of one key on an Object returns true exactly when the key was absent: then
the entries of the result are the previous ones plus the new pair; when the key was present
it returns false and the Object is unchanged.  A Null is first turned into an empty Object,
and every other discriminant throws the type error. -/
theorem emplace_single_key (o : List (String × value)) (ho : map_sorted o) (k : String)
    (x : value) :
    (k ∉ map_keys o → ∃ o', emplace (.object o) k x = (.object o', .ok true) ∧
      o'.Perm ((k, x) :: o) ∧ map_sorted o') ∧
    (k ∈ map_keys o → emplace (.object o) k x = (.object o, .ok false)) ∧
    emplace .null k x = (.object [(k, x)], .ok true) ∧
    (∀ v : value, v.type ≠ .NULL_ → v.type ≠ .OBJECT →
      emplace v k x = (v, .error (.type_error v.type))) := by
  refine ⟨fun hk => ?_, fun hk => ?_, ?_, fun v hn hobj => ?_⟩
  · obtain ⟨hflag, hperm⟩ := map_emplace_of_not_mem k x o hk
    refine ⟨(map_emplace k x o).1, ?_, hperm, map_emplace_sorted k x o hk ho⟩
    simp [emplace, unsafe_emplace_prepare, hflag]
  · simp [emplace, unsafe_emplace_prepare, map_emplace_of_mem k x o ho hk]
  · simp [emplace, unsafe_emplace_prepare, map_emplace]
  · cases v <;> simp [emplace, unsafe_emplace_prepare, value.type] at hn hobj ⊢

/-- On the Object with the entry "a" -> 1: `emplace` of "b" returns true and adds the pair,
`emplace` of "a" returns false and changes nothing. -/
theorem emplace_single_key_witness :
    map_sorted [("a", .integer 1)] ∧
    (∃ o', emplace (.object [("a", .integer 1)]) "b" (.integer 2) = (.object o', .ok true) ∧
      o'.Perm (("b", .integer 2) :: [("a", .integer 1)]) ∧ map_sorted o') ∧
    emplace (.object [("a", .integer 1)]) "a" (.integer 2)
      = (.object [("a", .integer 1)], .ok false) :=
  have ho : map_sorted [("a", .integer 1)] := by simp [map_sorted]
  ⟨ho,
    (emplace_single_key [("a", .integer 1)] ho "b" (.integer 2)).1
      (by simp [map_keys]),
    (emplace_single_key [("a", .integer 1)] ho "a" (.integer 2)).2.1 (by simp [map_keys])⟩

theorem plus_eq_loop_snd_eq_none_iff (o l : List (String × value)) (ho : map_sorted o) :
    (plus_eq_loop o l).2 = none ↔
      (map_keys l).Nodup ∧ ∀ k ∈ map_keys l, k ∉ map_keys o := by
  constructor
  · intro h
    by_contra hc
    obtain ⟨pre, k, x, post, hl, hnd, hd, hk⟩ := exists_first_conflict l (map_keys o) hc
    rw [hl, plus_eq_loop_conflict pre k x post o ho hnd hd hk] at h
    cases h
  · rintro ⟨hnd, hd⟩
    exact (plus_eq_loop_of_nodup l o hnd hd ho).1

/-- C18: bulk insert by `operator+=` into an Object fails with the duplicate-key error exactly
when a key of the list is already in the Object or repeats an earlier key of the list, and
the error names the key of the first such pair.  When no key conflicts the result holds the
previous entries and every pair of the list.  A Null target and the construction from a list
of pairs behave as the empty Object does; inserting ("a",1), ("b",2), ("a",3) into the empty
Object fails naming "a". -/
theorem bulk_insert_duplicate_key (o : List (String × value)) (ho : map_sorted o)
    (l : List (String × value)) :
    ((operator_plus_eq (.object o) l).2 = none ↔
      (map_keys l).Nodup ∧ ∀ k ∈ map_keys l, k ∉ map_keys o) ∧
    (∀ pre k x post, l = pre ++ (k, x) :: post → (map_keys pre).Nodup →
      (∀ k' ∈ map_keys pre, k' ∉ map_keys o) → (k ∈ map_keys o ∨ k ∈ map_keys pre) →
      (operator_plus_eq (.object o) l).2 = some (.duplicate_key k)) ∧
    ((map_keys l).Nodup → (∀ k ∈ map_keys l, k ∉ map_keys o) →
      ∃ o', operator_plus_eq (.object o) l = (.object o', none) ∧ o'.Perm (l ++ o) ∧
        map_sorted o') ∧
    operator_plus_eq .null l = operator_plus_eq (.object []) l ∧
    value.of_pairs l = operator_plus_eq (.object []) l ∧
    (value.of_pairs [("a", .integer 1), ("b", .integer 2), ("a", .integer 3)]).2
      = some (.duplicate_key "a") := by
  refine ⟨?_, ?_, ?_, rfl, rfl, ?_⟩
  · simpa [operator_plus_eq, unsafe_emplace_prepare] using plus_eq_loop_snd_eq_none_iff o l ho
  · intro pre k x post hl hnd hd hk
    simp [operator_plus_eq, unsafe_emplace_prepare, hl,
      plus_eq_loop_conflict pre k x post o ho hnd hd hk]
  · intro hnd hd
    obtain ⟨h1, h2, h3⟩ := plus_eq_loop_of_nodup l o hnd hd ho
    refine ⟨(plus_eq_loop o l).1, ?_, h3, h2⟩
    simp [operator_plus_eq, unsafe_emplace_prepare, ← h1]
  · have h1 : "a" < "b" := str_a_lt_b
    have h2 : ¬ "b" < "a" := str_b_not_lt_a
    simp [value.of_pairs, operator_plus_eq, unsafe_emplace_prepare, plus_eq_loop, map_emplace,
      h1, h2]

/-- Into the Object with the entry "a" -> 1, the list ("b",2), ("a",3) fails naming "a", and
the list ("b",2) alone succeeds. -/
theorem bulk_insert_duplicate_key_witness :
    map_sorted [("a", .integer 1)] ∧
    (operator_plus_eq (.object [("a", .integer 1)])
      [("b", .integer 2), ("a", .integer 3)]).2 = some (.duplicate_key "a") :=
  have ho : map_sorted [("a", .integer 1)] := by simp [map_sorted]
  ⟨ho, (bulk_insert_duplicate_key [("a", .integer 1)] ho
      [("b", .integer 2), ("a", .integer 3)]).2.1
      [("b", .integer 2)] "a" (.integer 3) [] rfl (by simp [map_keys]) (by simp [map_keys])
      (Or.inl (by simp [map_keys]))⟩

/-- C19: when `operator+=` fails with the duplicate-key error at a pair of the list, the
target is afterwards the Object holding its previous entries and the pairs before that pair,
the failing pair and the pairs after it are not inserted, and the conflicting key keeps its
earlier value; a Null target has become an Object. -/
theorem bulk_insert_not_rolled_back (o : List (String × value)) (ho : map_sorted o)
    (pre : List (String × value)) (k : String) (x : value) (post : List (String × value))
    (hnd : (map_keys pre).Nodup) (hd : ∀ k' ∈ map_keys pre, k' ∉ map_keys o)
    (hk : k ∈ map_keys o ∨ k ∈ map_keys pre) :
    ∃ o', operator_plus_eq (.object o) (pre ++ (k, x) :: post)
        = (.object o', some (.duplicate_key k)) ∧
      o'.Perm (pre ++ o) ∧ map_sorted o' ∧
      (∀ y, (k, y) ∈ o' ↔ (k, y) ∈ pre ++ o) ∧
      (o = [] → operator_plus_eq .null (pre ++ (k, x) :: post)
        = (.object o', some (.duplicate_key k))) := by
  obtain ⟨-, h2, h3⟩ := plus_eq_loop_of_nodup pre o hnd hd ho
  refine ⟨(plus_eq_loop o pre).1, ?_, h3, h2, fun y => h3.mem_iff, ?_⟩
  · simp [operator_plus_eq, unsafe_emplace_prepare,
      plus_eq_loop_conflict pre k x post o ho hnd hd hk]
  · rintro rfl
    simp [operator_plus_eq, unsafe_emplace_prepare,
      plus_eq_loop_conflict pre k x post [] ho hnd hd hk]

/-- Inserting ("a",1), ("b",2), ("a",3), ("c",4) into the empty Object, or into a Null value,
fails at the third pair and leaves the Object with the first two pairs. -/
theorem bulk_insert_not_rolled_back_witness :
    ∃ o', operator_plus_eq (.object [])
        ([("a", .integer 1), ("b", .integer 2)] ++ ("a", .integer 3) :: [("c", .integer 4)])
        = (.object o', some (.duplicate_key "a")) ∧
      o'.Perm ([("a", .integer 1), ("b", .integer 2)] ++ []) ∧ map_sorted o' ∧
      (∀ y, ("a", y) ∈ o' ↔
        ("a", y) ∈ [("a", value.integer 1), ("b", .integer 2)] ++ []) ∧
      (([] : List (String × value)) = [] → operator_plus_eq .null
        ([("a", .integer 1), ("b", .integer 2)] ++ ("a", .integer 3) :: [("c", .integer 4)])
        = (.object o', some (.duplicate_key "a"))) :=
  bulk_insert_not_rolled_back [] (by simp [map_sorted])
    [("a", .integer 1), ("b", .integer 2)] "a" (.integer 3) [("c", .integer 4)]
    (by simp [map_keys]) (by simp [map_keys]) (Or.inr (by simp [map_keys]))

/-! ### Erasing from an object -/

theorem map_erase_of_not_mem (k : String) (o : List (String × value))
    (hk : k ∉ map_keys o) : map_erase k o = (o, 0) := by
  induction o with
  | nil => rfl
  | cons e rest ih =>
    obtain ⟨l, w⟩ := e
    simp only [map_keys, List.map_cons, List.mem_cons, not_or] at hk
    rw [map_erase]
    by_cases h1 : k < l
    · simp [h1]
    · have h2 : l < k := lt_of_le_of_ne (not_lt.mp h1) (Ne.symm hk.1)
      simp only [h1, h2, if_true, if_false, ih hk.2]

theorem map_erase_of_mem (k : String) (o : List (String × value)) (ho : map_sorted o)
    (hk : k ∈ map_keys o) :
    map_erase k o = (o.filter (fun p => decide (p.1 ≠ k)), 1) := by
  induction o with
  | nil => simp [map_keys] at hk
  | cons e rest ih =>
    obtain ⟨l, w⟩ := e
    unfold map_sorted at ho
    rw [List.pairwise_cons] at ho
    simp only [map_keys, List.map_cons, List.mem_cons] at hk
    rw [map_erase]
    by_cases h1 : k < l
    · exfalso
      rcases hk with rfl | hk
      · exact lt_irrefl _ h1
      · obtain ⟨q, hq, rfl⟩ := List.mem_map.mp hk
        exact lt_irrefl _ (lt_trans h1 (ho.1 q hq))
    · by_cases h2 : l < k
      · have hk' : k ∈ map_keys rest := by
          rcases hk with rfl | hk
          · exact absurd h2 (lt_irrefl _)
          · exact hk
        simp only [h1, h2, if_true, if_false, ih ho.2 hk']
        simp [List.filter_cons, ne_of_lt h2]
      · have hkl : k = l := le_antisymm (not_lt.mp h2) (not_lt.mp h1)
        subst hkl
        simp only [h1, if_false]
        have hrest : rest.filter (fun p => decide (p.1 ≠ k)) = rest := by
          rw [List.filter_eq_self]
          intro q hq
          simpa using ne_of_gt (ho.1 q hq)
        simpa [List.filter_cons] using hrest.symm

/-- C20: `operator-=` with one key on an Object fails with the key-not-found error exactly
when the key is absent and then leaves the Object unchanged; when the key is present it
removes that entry and no other.  On a value that is not an Object, Null included, it throws
the type error.  Erasing "z" from the Object with the entry "a" -> 1 fails with
key-not-found. -/
theorem erase_by_key (o : List (String × value)) (ho : map_sorted o) (k : String) :
    (k ∉ map_keys o →
      operator_minus_eq (.object o) k = (.object o, some (.key_not_found k))) ∧
    (k ∈ map_keys o → operator_minus_eq (.object o) k
      = (.object (o.filter (fun p => decide (p.1 ≠ k))), none)) ∧
    (∀ v : value, v.type ≠ .OBJECT →
      operator_minus_eq v k = (v, some (.type_error v.type))) ∧
    operator_minus_eq (.object [("a", .integer 1)]) "z"
      = (.object [("a", .integer 1)], some (.key_not_found "z")) := by
  refine ⟨fun hk => ?_, fun hk => ?_, fun v hv => ?_, ?_⟩
  · simp [operator_minus_eq, get_object, map_erase_of_not_mem k o hk]
  · simp [operator_minus_eq, get_object, map_erase_of_mem k o ho hk]
  · cases v <;> simp [operator_minus_eq, get_object, value.type] at hv ⊢
  · simp [operator_minus_eq, get_object, map_erase_of_not_mem "z" [("a", .integer 1)]
      (by simp [map_keys])]

/-- On the Object with the entries "a" -> 1 and "b" -> 2, erasing "a" leaves the entry
"b" -> 2. -/
theorem erase_by_key_witness :
    map_sorted [("a", .integer 1), ("b", .integer 2)] ∧
    operator_minus_eq (.object [("a", .integer 1), ("b", .integer 2)]) "a"
      = (.object ([("a", value.integer 1), ("b", .integer 2)].filter
          (fun p => decide (p.1 ≠ "a"))), none) :=
  have ho : map_sorted [("a", .integer 1), ("b", .integer 2)] := by
    unfold map_sorted
    refine List.Pairwise.cons (fun q hq => ?_) (List.Pairwise.cons (fun q hq => ?_) .nil)
    · rw [List.mem_singleton.mp hq]
      exact str_a_lt_b
    · cases hq
  ⟨ho, (erase_by_key [("a", .integer 1), ("b", .integer 2)] ho "a").2.1 (by simp [map_keys])⟩

/-! ### Flatten -/

/-- C11: for v the Object with the entry "a" -> Reference to Integer 1, `flatten` produces no
tree, so there is no tree that a second `flatten` could reproduce; the claim says that
flattening twice gives the tree of flattening once. -/
theorem flatten_twice_no_result_on_object :
    ¬ ∃ t, flatten (.object [("a", .pointer (some (.integer 1)))]) = some t ∧
      flatten t = some t := by
  simp [flatten]

/-- C12: for v the Array holding the Object with the entry "a" -> Reference to Integer 1,
`flatten` produces no tree, in particular none without a Reference; the claim says the
flattened tree has no Reference at any depth, object values included. -/
theorem flatten_no_pointer_free_result_on_object :
    ¬ ∃ t, flatten (.array [.object [("a", .pointer (some (.integer 1)))]]) = some t ∧
      t.pointer_free = true := by
  simp [flatten]

/-- C13: `flatten` has no result for any value, since its body cannot be instantiated; so the
Object with the entry "a" -> Reference to Integer 1 does not become the Object with the entry
"a" -> Integer 1 that the claim describes, and no other case of the claim is computed
either. -/
theorem flatten_yields_no_tree :
    (∀ v : value, flatten v = none) ∧
    flatten (.object [("a", .pointer (some (.integer 1)))])
      ≠ some (.object [("a", .integer 1)]) := by
  refine ⟨fun _ => rfl, ?_⟩
  simp [flatten]

/-! ### Erasing a list of keys -/

theorem mem_map_keys_filter (o : List (String × value)) (f : String → Bool) (k : String) :
    k ∈ map_keys (o.filter (fun p => f p.1)) ↔ k ∈ map_keys o ∧ f k = true := by
  simp only [map_keys, List.mem_map, List.mem_filter]
  constructor
  · rintro ⟨p, ⟨hp, hf⟩, rfl⟩
    exact ⟨⟨p, hp, rfl⟩, hf⟩
  · rintro ⟨⟨p, hp, rfl⟩, hf⟩
    exact ⟨p, ⟨hp, hf⟩, rfl⟩

theorem map_sorted_filter (o : List (String × value)) (f : String × value → Bool)
    (ho : map_sorted o) : map_sorted (o.filter f) :=
  List.Pairwise.filter f ho

/-- The loop of the batch erase over keys that are distinct and all present removes these
keys and goes on with the rest of the list. -/
theorem minus_eq_loop_append (pre rest : List String) (o : List (String × value))
    (ho : map_sorted o) (hnd : pre.Nodup) (hp : ∀ k ∈ pre, k ∈ map_keys o) :
    minus_eq_loop o (pre ++ rest)
      = minus_eq_loop (o.filter (fun p => decide (p.1 ∉ pre))) rest := by
  induction pre generalizing o with
  | nil => simp
  | cons k pre ih =>
    rw [List.nodup_cons] at hnd
    have hk : k ∈ map_keys o := hp k (List.mem_cons_self _ _)
    have ho' : map_sorted (o.filter (fun p => decide (p.1 ≠ k))) := map_sorted_filter o _ ho
    have hp' : ∀ k' ∈ pre, k' ∈ map_keys (o.filter (fun p => decide (p.1 ≠ k))) := by
      intro k' hk'
      rw [mem_map_keys_filter o (fun a => decide (a ≠ k)) k']
      refine ⟨hp k' (List.mem_cons_of_mem _ hk'), ?_⟩
      rw [decide_eq_true_eq]
      rintro rfl
      exact hnd.1 hk'
    rw [List.cons_append, minus_eq_loop, map_erase_of_mem k o ho hk]
    simp only [one_ne_zero, if_false]
    rw [ih _ ho' hnd.2 hp', List.filter_filter]
    congr 1
    apply List.filter_congr
    intro p _
    by_cases h1 : p.1 = k <;> by_cases h2 : p.1 ∈ pre <;> simp [h1, h2]

theorem exists_first_failure (ks : List String) (bad : String → Prop)
    (h : ¬ (ks.Nodup ∧ ∀ k ∈ ks, ¬ bad k)) :
    ∃ pre k post, ks = pre ++ k :: post ∧ pre.Nodup ∧ (∀ k' ∈ pre, ¬ bad k') ∧
      (bad k ∨ k ∈ pre) := by
  induction ks generalizing bad with
  | nil => simp at h
  | cons k1 ks ih =>
    by_cases h1 : bad k1
    · exact ⟨[], k1, ks, rfl, List.nodup_nil, by simp, Or.inl h1⟩
    · have h' : ¬ (ks.Nodup ∧ ∀ k ∈ ks, ¬ (bad k ∨ k = k1)) := by
        rintro ⟨hnd, hd⟩
        apply h
        refine ⟨List.nodup_cons.mpr ⟨fun hmem => hd k1 hmem (Or.inr rfl), hnd⟩, ?_⟩
        intro k hk
        rcases List.mem_cons.mp hk with rfl | hk
        · exact h1
        · exact fun hb => hd k hk (Or.inl hb)
      obtain ⟨pre, k, post, hl, hnd, hd, hk⟩ := ih (fun k => bad k ∨ k = k1) h'
      refine ⟨k1 :: pre, k, post, by simp [hl], ?_, ?_, ?_⟩
      · exact List.nodup_cons.mpr ⟨fun hmem => hd k1 hmem (Or.inr rfl), hnd⟩
      · intro k' hk'
        rcases List.mem_cons.mp hk' with rfl | hk'
        · exact h1
        · exact fun hb => hd k' hk' (Or.inl hb)
      · rcases hk with (hk | rfl) | hk
        · exact Or.inl hk
        · exact Or.inr (List.mem_cons_self _ _)
        · exact Or.inr (List.mem_cons_of_mem _ hk)

/-- C21: batch erase on an Object (with keys ascending strictly, as in every map) takes the
keys in list order.  When the listed keys are pairwise distinct and all present, exactly they
are removed and nothing is thrown.  When the list is `pre ++ k :: post`, the keys of `pre`
are distinct and present and `k` is absent from the Object or listed in `pre` already, the
call throws the key-not-found error for `k`, the keys of `pre` are erased and stay so, and
every other entry, those with a key of `post` included, is untouched.  Every list of keys
is of one of these two forms. -/
theorem batch_erase (o : List (String × value)) (ho : map_sorted o) :
    (∀ ks : List String, ks.Nodup → (∀ k ∈ ks, k ∈ map_keys o) →
      operator_minus_eq_list (.object o) ks
        = (.object (o.filter (fun p => decide (p.1 ∉ ks))), none)) ∧
    (∀ (pre : List String) (k : String) (post : List String),
      pre.Nodup → (∀ k' ∈ pre, k' ∈ map_keys o) → (k ∉ map_keys o ∨ k ∈ pre) →
      operator_minus_eq_list (.object o) (pre ++ k :: post)
        = (.object (o.filter (fun p => decide (p.1 ∉ pre))), some (.key_not_found k))) ∧
    (∀ ks : List String, (ks.Nodup ∧ ∀ k ∈ ks, k ∈ map_keys o) ∨
      ∃ pre k post, ks = pre ++ k :: post ∧ pre.Nodup ∧ (∀ k' ∈ pre, k' ∈ map_keys o) ∧
        (k ∉ map_keys o ∨ k ∈ pre)) := by
  refine ⟨?_, ?_, ?_⟩
  rotate_left 2
  · intro ks
    by_cases h : ks.Nodup ∧ ∀ k ∈ ks, ¬ (k ∉ map_keys o)
    · exact Or.inl ⟨h.1, fun k hk => not_not.mp (h.2 k hk)⟩
    · obtain ⟨pre, k, post, hl, hnd, hd, hk⟩ := exists_first_failure ks _ h
      exact Or.inr ⟨pre, k, post, hl, hnd, fun k' hk' => not_not.mp (hd k' hk'), hk⟩
  · intro ks hnd hp
    have h := minus_eq_loop_append ks [] o ho hnd hp
    rw [List.append_nil] at h
    simp only [operator_minus_eq_list, get_object, h, minus_eq_loop]
  · intro pre k post hnd hp hk
    have h := minus_eq_loop_append pre (k :: post) o ho hnd hp
    have hk' : k ∉ map_keys (o.filter (fun p => decide (p.1 ∉ pre))) := by
      rw [mem_map_keys_filter o (fun a => decide (a ∉ pre)) k]
      rintro ⟨h1, h2⟩
      rw [decide_eq_true_eq] at h2
      rcases hk with hk | hk
      · exact hk h1
      · exact h2 hk
    simp only [operator_minus_eq_list, get_object, h, minus_eq_loop,
      map_erase_of_not_mem k _ hk', if_true]

theorem batch_erase_witness :
    map_sorted [("a", .integer 1), ("b", .integer 2)] ∧
    operator_minus_eq_list (.object [("a", .integer 1), ("b", .integer 2)]) ["a", "a", "b"]
      = (.object [("b", .integer 2)], some (.key_not_found "a")) :=
  have ho : map_sorted [("a", .integer 1), ("b", .integer 2)] := by
    unfold map_sorted
    refine List.Pairwise.cons (fun q hq => ?_) (List.Pairwise.cons (fun q hq => ?_) .nil)
    · rw [List.mem_singleton.mp hq]; exact str_a_lt_b
    · cases hq
  ⟨ho, by
    have h := (batch_erase [("a", .integer 1), ("b", .integer 2)] ho).2.1 ["a"] "a" ["b"]
      (by simp) (by simp [map_keys]) (Or.inr (by simp))
    simpa using h⟩

/-! ### Checked access -/

theorem map_at_of_mem (k : String) (x : value) (o : List (String × value)) (ho : map_sorted o)
    (hk : (k, x) ∈ o) : map_at k o = .ok x := by
  induction o with
  | nil => cases hk
  | cons e rest ih =>
    obtain ⟨l, w⟩ := e
    unfold map_sorted at ho
    rw [List.pairwise_cons] at ho
    rw [map_at]
    rcases List.mem_cons.mp hk with h | h
    · cases h
      simp
    · have h1 : l < k := ho.1 (k, x) h
      simp only [not_lt_of_gt h1, h1, if_true, if_false]
      exact ih ho.2 h

theorem map_at_of_not_mem (k : String) (o : List (String × value))
    (hk : k ∉ map_keys o) : map_at k o = .error .out_of_range := by
  induction o with
  | nil => rfl
  | cons e rest ih =>
    obtain ⟨l, w⟩ := e
    simp only [map_keys, List.map_cons, List.mem_cons, not_or] at hk
    rw [map_at]
    by_cases h1 : k < l
    · simp [h1]
    · have h2 : l < k := lt_of_le_of_ne (not_lt.mp h1) (Ne.symm hk.1)
      simp only [h1, h2, if_true, if_false]
      exact ih hk.2

/-- C22, at the Object with the one entry "a" -> Integer 1 and the absent key "z":
`at( "z" )` throws `std::out_of_range`, the error that `at( 2 )` throws on an array of
length 2, and not a key-not-found error, which is what `operator-=` throws for the same
key; the claim says it fails with KeyNotFound. -/
theorem checked_lookup_error_is_out_of_range :
    value.at_key (.object [("a", .integer 1)]) "z"
      = (.object [("a", .integer 1)], .error .out_of_range) ∧
    (∀ k : String,
      (value.at_key (.object [("a", .integer 1)]) "z").2 ≠ .error (.key_not_found k)) ∧
    (value.at_key (.object [("a", .integer 1)]) "z").2
      = (value.at_index (.array [.integer 1, .integer 2]) 2).2 ∧
    operator_minus_eq (.object [("a", .integer 1)]) "z"
      = (.object [("a", .integer 1)], some (.key_not_found "z")) := by
  have hz : "z" ∉ map_keys [("a", value.integer 1)] := by simp [map_keys]
  have h1 := map_at_of_not_mem "z" _ hz
  have h2 := map_erase_of_not_mem "z" _ hz
  refine ⟨?_, ?_, ?_, ?_⟩
  · simp [value.at_key, h1]
  · intro k
    simp [value.at_key, h1]
  · simp [value.at_key, h1, value.at_index, vector_at]
  · simp [operator_minus_eq, get_object, h2]

/-- C22, amended: checked access.  `at( i )` on an Array of length `n` returns element `i`
when `i < n` and throws `std::out_of_range` when `n ≤ i`, so `at( 2 )` on an array of length 2
throws; `at( k )` on an Object (with keys ascending strictly, as in every map) returns the
value mapped to `k` when there is one and throws the same `std::out_of_range` when there is
none; `at( i )` on a value that is not an Array and `at( k )` on one that is not an Object
throw the type error for the discriminant found.  The value is the same after each of these
calls. -/
theorem checked_access (o : List (String × value)) (ho : map_sorted o) (k : String) :
    (∀ (a : List value) (i : Nat) (h : i < a.length),
      value.at_index (.array a) i = (.array a, .ok a[i])) ∧
    (∀ (a : List value) (i : Nat), a.length ≤ i →
      value.at_index (.array a) i = (.array a, .error .out_of_range)) ∧
    value.at_index (.array [.integer 1, .integer 2]) 2
      = (.array [.integer 1, .integer 2], .error .out_of_range) ∧
    (∀ x : value, (k, x) ∈ o → value.at_key (.object o) k = (.object o, .ok x)) ∧
    (k ∉ map_keys o → value.at_key (.object o) k = (.object o, .error .out_of_range)) ∧
    (∀ (v : value) (i : Nat), v.type ≠ .ARRAY →
      v.at_index i = (v, .error (.type_error v.type))) ∧
    (∀ v : value, v.type ≠ .OBJECT → v.at_key k = (v, .error (.type_error v.type))) ∧
    (∀ (v : value) (i : Nat), (v.at_index i).1 = v) ∧
    (∀ v : value, (v.at_key k).1 = v) := by
  refine ⟨?_, ?_, ?_, ?_, ?_, ?_, ?_, ?_, ?_⟩
  · intro a i h
    simp [value.at_index, vector_at, List.getElem?_eq_getElem h]
  · intro a i h
    simp [value.at_index, vector_at, List.getElem?_eq_none h]
  · simp [value.at_index, vector_at]
  · intro x hx
    simp [value.at_key, map_at_of_mem k x o ho hx]
  · intro hk
    simp [value.at_key, map_at_of_not_mem k o hk]
  · intro v i hv
    cases v <;> first | rfl | exact absurd rfl hv
  · intro v hv
    cases v <;> first | rfl | exact absurd rfl hv
  · intro v i
    cases v <;> rfl
  · intro v
    cases v <;> rfl

theorem checked_access_witness :
    map_sorted [("a", .integer 1), ("b", .integer 2)] ∧
    value.at_key (.object [("a", .integer 1), ("b", .integer 2)]) "b"
      = (.object [("a", .integer 1), ("b", .integer 2)], .ok (.integer 2)) :=
  have ho : map_sorted [("a", .integer 1), ("b", .integer 2)] := by
    unfold map_sorted
    refine List.Pairwise.cons (fun q hq => ?_) (List.Pairwise.cons (fun q hq => ?_) .nil)
    · rw [List.mem_singleton.mp hq]; exact str_a_lt_b
    · cases hq
  ⟨ho, (checked_access [("a", .integer 1), ("b", .integer 2)] ho "b").2.2.2.1 (.integer 2)
    (by simp)⟩

/-! ### Keyed access that inserts -/

theorem map_subscript_of_not_mem (k : String) (o : List (String × value))
    (hk : k ∉ map_keys o) :
    map_subscript k o = ((map_emplace k .null o).1, .null) := by
  induction o with
  | nil => rfl
  | cons e rest ih =>
    obtain ⟨l, w⟩ := e
    simp only [map_keys, List.map_cons, List.mem_cons, not_or] at hk
    rw [map_subscript, map_emplace]
    by_cases h1 : k < l
    · simp [h1]
    · have h2 : l < k := lt_of_le_of_ne (not_lt.mp h1) (Ne.symm hk.1)
      simp only [h1, h2, if_true, if_false, ih hk.2]

theorem map_subscript_of_mem (k : String) (x : value) (o : List (String × value))
    (ho : map_sorted o) (hk : (k, x) ∈ o) : map_subscript k o = (o, x) := by
  induction o with
  | nil => cases hk
  | cons e rest ih =>
    obtain ⟨l, w⟩ := e
    unfold map_sorted at ho
    rw [List.pairwise_cons] at ho
    rw [map_subscript]
    rcases List.mem_cons.mp hk with h | h
    · cases h
      simp
    · have h1 : l < k := ho.1 (k, x) h
      simp only [not_lt_of_gt h1, h1, if_true, if_false, ih ho.2 h]

/-- C23: keyed access `o[ k ]` on an Object (with keys ascending strictly, as in every map).
For a key that is absent the Object afterwards is again a map, it has the entries it had and
the entry `k -> Null` and no other, so one entry more, and the value returned is that Null;
for a key that is present the value returned is the one mapped to it and the Object is
unchanged. -/
theorem keyed_subscript (o : List (String × value)) (ho : map_sorted o) (k : String) :
    (k ∉ map_keys o → ∃ o' : List (String × value),
      value.subscript_key (.object o) k = some (.object o', .null) ∧
      map_sorted o' ∧ o'.Perm ((k, .null) :: o) ∧ o'.length = o.length + 1 ∧
      (k, value.null) ∈ o' ∧ ∀ p ∈ o, p ∈ o') ∧
    (∀ x : value, (k, x) ∈ o → value.subscript_key (.object o) k = some (.object o, x)) := by
  constructor
  · intro hk
    obtain ⟨_, hperm⟩ := map_emplace_of_not_mem k .null o hk
    refine ⟨(map_emplace k .null o).1, ?_, map_emplace_sorted k .null o hk ho, hperm, ?_, ?_, ?_⟩
    · simp [value.subscript_key, map_subscript_of_not_mem k o hk]
    · simpa using hperm.length_eq
    · exact hperm.mem_iff.mpr (List.mem_cons_self _ _)
    · exact fun p hp => hperm.mem_iff.mpr (List.mem_cons_of_mem _ hp)
  · intro x hx
    simp [value.subscript_key, map_subscript_of_mem k x o ho hx]

theorem keyed_subscript_witness :
    map_sorted [("a", .integer 1)] ∧ "b" ∉ map_keys [("a", .integer 1)] ∧
    (∃ o' : List (String × value),
      value.subscript_key (.object [("a", .integer 1)]) "b" = some (.object o', .null) ∧
      map_sorted o' ∧ o'.Perm (("b", .null) :: [("a", .integer 1)]) ∧
      o'.length = [("a", value.integer 1)].length + 1 ∧
      ("b", value.null) ∈ o' ∧ ∀ p ∈ [("a", value.integer 1)], p ∈ o') ∧
    value.subscript_key (.object [("a", .integer 1)]) "a"
      = some (.object [("a", .integer 1)], .integer 1) :=
  have ho : map_sorted [("a", .integer 1)] := by
    unfold map_sorted
    exact List.pairwise_singleton _ _
  have hb : "b" ∉ map_keys [("a", .integer 1)] := by simp [map_keys]
  ⟨ho, hb, (keyed_subscript [("a", .integer 1)] ho "b").1 hb,
    (keyed_subscript [("a", .integer 1)] ho "a").2 (.integer 1) (by simp)⟩

/-! ### Emptiness and the checked getters -/

/-- C24: `empty()` is true exactly for Null, a String of length 0, an Array of length 0, an
Object without entries and an absent Reference; it is false for every Bool, Integer and
Double and for every Reference with a referent. -/
theorem empty_iff (v : value) :
    (v.empty = true ↔
      v = .null ∨ (∃ s : String, v = .string s ∧ s.length = 0) ∨
      (∃ a : List value, v = .array a ∧ a.length = 0) ∨
      (∃ o : List (String × value), v = .object o ∧ o.length = 0) ∨ v = .pointer none) ∧
    (∀ b : Bool, (value.bool b).empty = false) ∧
    (∀ i : Int, (value.integer i).empty = false) ∧
    (∀ d : Rat, (value.double d).empty = false) ∧
    (∀ p : value, (value.pointer (some p)).empty = false) := by
  refine ⟨?_, fun _ => rfl, fun _ => rfl, fun _ => rfl, fun _ => rfl⟩
  cases v with
  | null => simp [value.empty]
  | bool b => simp [value.empty]
  | integer i => simp [value.empty]
  | double d => simp [value.empty]
  | string s => simp [value.empty]
  | array a => cases a <;> simp [value.empty]
  | object o => cases o <;> simp [value.empty]
  | pointer p => cases p <;> simp [value.empty]

/-- C27: each checked getter returns the payload when the discriminant of the value is the
one of the getter and throws the type error for the discriminant found when it is another
one; on a Reference every getter but `get_pointer` throws, whatever the referent, and
`get_pointer` returns the pointer itself. -/
theorem checked_getters (v : value) :
    (v.type = .NULL_ → get_null v = .ok ()) ∧
    (v.type ≠ .NULL_ → get_null v = .error (.type_error v.type)) ∧
    (∀ b, v = .bool b → get_bool v = .ok b) ∧
    (v.type ≠ .BOOL_ → get_bool v = .error (.type_error v.type)) ∧
    (∀ i, v = .integer i → get_integer v = .ok i) ∧
    (v.type ≠ .INTEGER → get_integer v = .error (.type_error v.type)) ∧
    (∀ d, v = .double d → get_double v = .ok d) ∧
    (v.type ≠ .DOUBLE → get_double v = .error (.type_error v.type)) ∧
    (∀ s, v = .string s → get_string v = .ok s) ∧
    (v.type ≠ .STRING → get_string v = .error (.type_error v.type)) ∧
    (∀ a, v = .array a → get_array v = .ok a) ∧
    (v.type ≠ .ARRAY → get_array v = .error (.type_error v.type)) ∧
    (∀ o, v = .object o → get_object v = .ok o) ∧
    (v.type ≠ .OBJECT → get_object v = .error (.type_error v.type)) ∧
    (∀ p, v = .pointer p → get_pointer v = .ok p) ∧
    (v.type ≠ .POINTER → get_pointer v = .error (.type_error v.type)) ∧
    (v.type = .NULL_ ↔ v = .null) ∧ (v.type = .BOOL_ ↔ ∃ b, v = .bool b) ∧
    (v.type = .INTEGER ↔ ∃ i, v = .integer i) ∧ (v.type = .DOUBLE ↔ ∃ d, v = .double d) ∧
    (v.type = .STRING ↔ ∃ s, v = .string s) ∧ (v.type = .ARRAY ↔ ∃ a, v = .array a) ∧
    (v.type = .OBJECT ↔ ∃ o, v = .object o) ∧ (v.type = .POINTER ↔ ∃ p, v = .pointer p) := by
  cases v <;>
    simp [value.type, get_null, get_bool, get_integer, get_double, get_string, get_array,
      get_object, get_pointer]

theorem checked_getters_witness :
    (value.pointer (some (.integer 1))).type ≠ .INTEGER ∧
    get_integer (.pointer (some (.integer 1))) = .error (.type_error .POINTER) :=
  ⟨by decide, (checked_getters (.pointer (some (.integer 1)))).2.2.2.2.2.1 (by decide)⟩
/-! ### Construction from external types -/

theorem int64_t_of_eq (x : Int) (h1 : -(2 ^ 63) ≤ x) (h2 : x < 2 ^ 63) : int64_t_of x = x := by
  unfold int64_t_of
  norm_num at h1 h2 ⊢
  omega

theorem int64_range_of_holds (t : integer_type) (ht : t.has_traits = true) (x : Int)
    (hx : t.holds x) : -(2 ^ 63) ≤ x ∧ x < 2 ^ 63 := by
  cases t <;>
    first
    | exact absurd ht (by decide)
    | (simp only [integer_type.holds, integer_type.lowest, integer_type.highest,
        integer_type.is_signed, integer_type.bits] at hx
       norm_num at hx ⊢
       omega)

/-- C25, at the type `unsigned long`: it has 64 bits and no sign and `2^64 - 1` is one of
its numbers, and there is no value built from this number, so none with discriminant Integer
whose `get_integer` is the number; `unsafe_assign_integer` itself turns the number into
`-1`. -/
theorem no_value_of_unsigned_64 :
    integer_type.unsigned_long.bits = 64 ∧ integer_type.unsigned_long.is_signed = false ∧
    integer_type.unsigned_long.holds 18446744073709551615 ∧
    value.of_integer .unsigned_long 18446744073709551615 = none ∧
    (¬ ∃ v : value, value.of_integer .unsigned_long 18446744073709551615 = some v ∧
      v.type = .INTEGER ∧ get_integer v = .ok 18446744073709551615) ∧
    unsafe_assign_integer 18446744073709551615 = .integer (-1) := by
  refine ⟨rfl, rfl, ?_, rfl, ?_, ?_⟩
  · norm_num [integer_type.holds, integer_type.lowest, integer_type.highest,
      integer_type.is_signed, integer_type.bits]
  · rintro ⟨v, hv, _⟩
    cases hv
  · norm_num [unsafe_assign_integer, int64_t_of]

/-- C25, amended: `get_bool` of the value built from a bool `b` is `b`, `get_string` of the
value built from a string `s` is `s`, and for every integer type with a specialisation of
`traits`, which are the signed types of 8, 16, 32 and 64 bits and the unsigned types of 8, 16
and 32 bits, and every number `x` of the type, the value built from `x` has discriminant
Integer and `get_integer` returns `x`, a number of `int64_t`; the greatest `unsigned int` is
stored as 4294967295.  The unsigned types of 64 bits have no specialisation: no value is
built from them. -/
theorem construction_round_trip (t : integer_type) (ht : t.has_traits = true) (x : Int)
    (hx : t.holds x) :
    (∃ v : value, value.of_integer t x = some v ∧ v.type = .INTEGER ∧
      get_integer v = .ok x) ∧
    -(2 ^ 63) ≤ x ∧ x < 2 ^ 63 ∧
    (∀ b : Bool, get_bool (unsafe_assign_bool b) = .ok b) ∧
    (∀ s : String, get_string (unsafe_emplace_string s) = .ok s) ∧
    (integer_type.unsigned_int.highest = 4294967295 ∧
      value.of_integer .unsigned_int 4294967295 = some (.integer 4294967295)) ∧
    (∀ u : integer_type, u.has_traits = true ↔ (u.is_signed = true ∨ u.bits < 64)) ∧
    (∀ (u : integer_type) (y : Int), u.has_traits = false → value.of_integer u y = none) := by
  obtain ⟨h1, h2⟩ := int64_range_of_holds t ht x hx
  refine ⟨⟨.integer x, ?_, rfl, rfl⟩, h1, h2, fun _ => rfl, fun _ => rfl, ⟨?_, ?_⟩, ?_, ?_⟩
  · simp [value.of_integer, ht, unsafe_assign_integer, int64_t_of_eq x h1 h2]
  · norm_num [integer_type.highest, integer_type.is_signed, integer_type.bits]
  · norm_num [value.of_integer, integer_type.has_traits, unsafe_assign_integer, int64_t_of]
  · intro u
    cases u <;> decide
  · intro u y hu
    simp [value.of_integer, hu]

theorem construction_round_trip_witness :
    integer_type.unsigned_int.has_traits = true ∧
    integer_type.unsigned_int.holds 4294967295 ∧
    (∃ v : value, value.of_integer .unsigned_int 4294967295 = some v ∧ v.type = .INTEGER ∧
      get_integer v = .ok 4294967295) :=
  have hx : integer_type.unsigned_int.holds 4294967295 := by
    norm_num [integer_type.holds, integer_type.lowest, integer_type.highest,
      integer_type.is_signed, integer_type.bits]
  ⟨rfl, hx, (construction_round_trip .unsigned_int rfl 4294967295 hx).1⟩

/-- C26: constructing or assigning a value from a `double` or a `float` succeeds exactly when
the number is finite.  A finite `d` gives a value with discriminant Double whose `get_double`
is `d`; a NaN and the two infinities throw the non-finite error, in the constructor and in
the assignment; so every value that the conversion yields holds a finite number. -/
theorem double_construction (d : cpp_double) (v : value) :
    (isfinite d = true ↔ ∃ w : value, value.of_double d = .ok w) ∧
    (isfinite d = true ↔ (assign_double v d).2 = none) ∧
    (isfinite d = false ↔ value.of_double d = .error .non_finite) ∧
    (isfinite d = false ↔ (assign_double v d).2 = some .non_finite) ∧
    (∀ q : Rat, value.of_double (.finite q) = .ok (.double q) ∧
      assign_double v (.finite q) = (.double q, none) ∧
      (value.double q).type = .DOUBLE ∧ get_double (.double q) = .ok q) ∧
    value.of_double .nan = .error .non_finite ∧
    value.of_double (.infinity false) = .error .non_finite ∧
    value.of_double (.infinity true) = .error .non_finite ∧
    (∀ w : value, value.of_double d = .ok w ∨ (assign_double v d = (w, none)) →
      ∃ q : Rat, d = .finite q ∧ w = .double q) := by
  refine ⟨?_, ?_, ?_, ?_, fun q => ⟨rfl, rfl, rfl, rfl⟩, rfl, rfl, rfl, ?_⟩
  · cases d <;> simp [value.of_double, unsafe_assign_double, isfinite]
  · cases d <;> simp [assign_double, unsafe_assign_double, isfinite]
  · cases d <;> simp [value.of_double, unsafe_assign_double, isfinite]
  · cases d <;> simp [assign_double, unsafe_assign_double, isfinite]
  · intro w hw
    cases d with
    | finite q =>
      refine ⟨q, rfl, ?_⟩
      rcases hw with hw | hw
      · simp only [value.of_double, unsafe_assign_double, isfinite] at hw
        cases hw
        rfl
      · simp only [assign_double, unsafe_assign_double, isfinite] at hw
        cases hw
        rfl
    | nan =>
      rcases hw with hw | hw
      · simp [value.of_double, unsafe_assign_double, isfinite] at hw
      · simp [assign_double, unsafe_assign_double, isfinite] at hw
    | infinity s =>
      rcases hw with hw | hw
      · simp [value.of_double, unsafe_assign_double, isfinite] at hw
      · simp [assign_double, unsafe_assign_double, isfinite] at hw

theorem double_construction_witness :
    value.of_double (.finite 1) = .ok (.double 1) ∧
    ∃ q : Rat, cpp_double.finite 1 = .finite q ∧ value.double 1 = .double q :=
  ⟨rfl, (double_construction (.finite 1) .null).2.2.2.2.2.2.2.2 (.double 1) (Or.inl rfl)⟩

/-! ### Assignment between values -/

/-- C28: move assignment between two distinct values leaves in the destination the value the
source held, whatever the destination held, and leaves the discriminant of the source as it
was, so not Null unless it was Null; a source that is Null, a Bool, an Integer, a Double or a
Reference is unchanged as a whole.  Move assignment of a value to itself changes nothing. -/
theorem move_assignment (μ : moved_from) (lhs r : value) :
    (operator_move_assign μ (.distinct lhs r)).target = r ∧
    (operator_move_assign μ (.distinct lhs r)).source.type = r.type ∧
    ((operator_move_assign μ (.distinct lhs r)).source.type = .NULL_ ↔ r.type = .NULL_) ∧
    (operator_move_assign μ (.distinct lhs .null)).source = .null ∧
    (∀ b : Bool, (operator_move_assign μ (.distinct lhs (.bool b))).source = .bool b) ∧
    (∀ i : Int, (operator_move_assign μ (.distinct lhs (.integer i))).source = .integer i) ∧
    (∀ d : Rat, (operator_move_assign μ (.distinct lhs (.double d))).source = .double d) ∧
    (∀ p : Option value,
      (operator_move_assign μ (.distinct lhs (.pointer p))).source = .pointer p) ∧
    (∀ s : String,
      (operator_move_assign μ (.distinct lhs (.string s))).source = .string (μ.s s)) ∧
    (∀ a : List value,
      (operator_move_assign μ (.distinct lhs (.array a))).source = .array (μ.a a)) ∧
    (∀ o : List (String × value),
      (operator_move_assign μ (.distinct lhs (.object o))).source = .object (μ.o o)) ∧
    operator_move_assign μ (.same r) = .same r := by
  refine ⟨?_, ?_, ?_, rfl, fun _ => rfl, fun _ => rfl, fun _ => rfl, fun _ => rfl,
    fun _ => rfl, fun _ => rfl, fun _ => rfl, rfl⟩
  · cases r <;> rfl
  · cases r <;> rfl
  · cases r <;> simp [operator_move_assign, operands.source, seize, value.type]

/-! ### Key uniqueness -/

/-- C30: for v the Array holding one Reference to Integer 1, `flatten` yields no flattened
copy, where the claim says there is one that compares equal to v.  For the tree that the
claim describes as the copy, the Array holding Integer 1, v == f is true, but f == v is not,
whatever the read of `m_union.p` of the Integer yields (it is false when the read yields null
and has no defined result otherwise). -/
theorem flattened_copy_not_equal_to_original (z : punning) :
    flatten (.array [.pointer (some (.integer 1))]) = none ∧
    operator_eq z (.array [.pointer (some (.integer 1))]) (.array [.integer 1])
      = some true ∧
    operator_eq z (.array [.integer 1]) (.array [.pointer (some (.integer 1))])
      ≠ some true := by
  refine ⟨rfl, ?_, ?_⟩
  · simp [operator_eq, vector_equal]
  · cases h : z (.integer 1) <;> simp [operator_eq, vector_equal, eq_integer_pointer, h]

/-! ### Assignment that fails -/

/-- C31: for every value v and every non-finite `double` d (a NaN or an infinity), the
assignment `v = d` throws the non-finite error and leaves v Null, because `destroy()` runs
before the conversion; so a v that was not Null does not keep its previous content. -/
theorem assignment_not_atomic (v : value) (d : cpp_double) (hd : isfinite d = false) :
    assign_double v d = (.null, some .non_finite) ∧
    (v.type ≠ .NULL_ → (assign_double v d).1 ≠ v) ∧
    destroy v = .null ∧
    assign_double (.integer 1) .nan = (.null, some .non_finite) := by
  have h : assign_double v d = (.null, some .non_finite) := by
    cases d <;> simp [isfinite] at hd <;>
      simp [assign_double, unsafe_assign_double, isfinite, destroy]
  refine ⟨h, ?_, rfl, rfl⟩
  intro hv heq
  rw [h] at heq
  exact hv (by rw [← heq]; rfl)

theorem assignment_not_atomic_witness :
    isfinite (.infinity true) = false ∧
    assign_double (.string "x") (.infinity true) = (.null, some .non_finite) :=
  ⟨rfl, (assignment_not_atomic (.string "x") (.infinity true) rfl).1⟩

end tao.json
